import Mathlib

/-!
Verification of the read-side caching and join layer of the spreadsheet-backed
CRM repository.  Each reader/service function used by the claims is embedded as
a pure Lean function; the shared cache is threaded explicitly as state and the
remote TableSource response is passed as an `Option` value (`none` models a
transport failure).  JavaScript string/number primitives that the code relies
on (`toLowerCase`, `trim`, `parseInt`, `Date` parsing, `Array.prototype.sort`)
are modelled below.
-/

namespace Crm

/-! ## JavaScript primitive models -/

/-- Model of `String.prototype.toLowerCase` on one character.  The repository
only ever lower-cases ASCII letters and CJK text (which has no case), so the
model maps the ASCII range and leaves every other code point unchanged. -/
def jsLowerChar (c : Char) : Char :=
  if 65 ≤ c.toNat ∧ c.toNat ≤ 90 then Char.ofNat (c.toNat + 32) else c

def jsToLowerList (cs : List Char) : List Char := cs.map jsLowerChar

/-- Characters removed by `String.prototype.trim` (ASCII whitespace, NBSP,
BOM and the Unicode line separators — the class the ECMAScript spec names). -/
def jsWhitespace (c : Char) : Bool :=
  c = ' ' ∨ c = '\t' ∨ c = '\n' ∨ c = '\r' ∨
  c = Char.ofNat 0x0B ∨ c = Char.ofNat 0x0C ∨
  c = Char.ofNat 0xA0 ∨ c = Char.ofNat 0xFEFF ∨
  c = Char.ofNat 0x2028 ∨ c = Char.ofNat 0x2029

/-- `String.prototype.trim`: drop whitespace from both ends. -/
def jsTrimList (cs : List Char) : List Char :=
  ((cs.dropWhile jsWhitespace).reverse.dropWhile jsWhitespace).reverse

def jsTrim (s : String) : String := String.mk (jsTrimList s.toList)

def digitVal (c : Char) : Option Nat :=
  if '0' ≤ c ∧ c ≤ '9' then some (c.toNat - 48) else none

def hexVal (c : Char) : Option Nat :=
  if '0' ≤ c ∧ c ≤ '9' then some (c.toNat - 48)
  else if 'a' ≤ c ∧ c ≤ 'f' then some (c.toNat - 87)
  else if 'A' ≤ c ∧ c ≤ 'F' then some (c.toNat - 55)
  else none

def takeDigits (f : Char → Option Nat) (base : Nat) : List Char → Nat → Nat
  | [], acc => acc
  | c :: cs, acc =>
    match f c with
    | some d => takeDigits f base cs (acc * base + d)
    | none => acc

def hasLeadingDigit (f : Char → Option Nat) : List Char → Bool
  | [] => false
  | c :: _ => (f c).isSome

/-- Model of `parseInt(s)` (radix unspecified): skip leading whitespace, an
optional sign, an optional `0x`/`0X` hex prefix, then the longest digit
prefix; `none` models `NaN`. -/
def jsParseInt (s : String) : Option Int :=
  let cs := (s.toList).dropWhile jsWhitespace
  let (sign, cs) : Int × List Char :=
    match cs with
    | '-' :: rest => (-1, rest)
    | '+' :: rest => (1, rest)
    | _ => (1, cs)
  match cs with
  | '0' :: 'x' :: rest =>
    if hasLeadingDigit hexVal rest then some (sign * takeDigits hexVal 16 rest 0) else none
  | '0' :: 'X' :: rest =>
    if hasLeadingDigit hexVal rest then some (sign * takeDigits hexVal 16 rest 0) else none
  | _ =>
    if hasLeadingDigit digitVal cs then some (sign * takeDigits digitVal 10 cs 0) else none

/-- `parseInt(order) || 99` from the settings parser: `NaN` and `0` are falsy. -/
def jsParseIntOr99 (s : String) : Int :=
  match jsParseInt s with
  | some n => if n = 0 then 99 else n
  | none => 99

/-! ### `new Date(string)` for the formats the repository writes

The repository writes timestamps with `new Date().toISOString()` and
`YYYY-MM-DD` date strings.  The model parses exactly the ISO-8601 UTC subset
`YYYY-MM-DD`, `YYYY-MM-DDTHH:MM[:SS[.mmm]]Z` into epoch milliseconds (an
`Int`, so pre-1970 instants are representable); every other string is
modelled as an invalid date (`none`, i.e. `NaN`). -/

def isLeapYear (y : Int) : Bool :=
  (y % 4 = 0 ∧ y % 100 ≠ 0) ∨ y % 400 = 0

def daysInMonth (y : Int) (m : Nat) : Nat :=
  if m = 1 ∨ m = 3 ∨ m = 5 ∨ m = 7 ∨ m = 8 ∨ m = 10 ∨ m = 12 then 31
  else if m = 4 ∨ m = 6 ∨ m = 9 ∨ m = 11 then 30
  else if isLeapYear y then 29 else 28

/-- Days since 1970-01-01 of a civil date (Hinnant's `days_from_civil`). -/
def daysFromCivil (y : Int) (m d : Nat) : Int :=
  let y' : Int := if m ≤ 2 then y - 1 else y
  let era : Int := (if 0 ≤ y' then y' else y' - 399) / 400
  let yoe : Int := y' - era * 400
  let mp : Int := if m > 2 then (m : Int) - 3 else (m : Int) + 9
  let doy : Int := (153 * mp + 2) / 5 + (d : Int) - 1
  let doe : Int := yoe * 365 + yoe / 4 - yoe / 100 + doy
  era * 146097 + doe - 719468

def parse2 (a b : Char) : Option Nat :=
  match digitVal a, digitVal b with
  | some x, some y => some (x * 10 + y)
  | _, _ => none

def parse4 (a b c d : Char) : Option Nat :=
  match digitVal a, digitVal b, digitVal c, digitVal d with
  | some w, some x, some y, some z => some (w * 1000 + x * 100 + y * 10 + z)
  | _, _, _, _ => none

def parse3 (a b c : Char) : Option Nat :=
  match digitVal a, digitVal b, digitVal c with
  | some x, some y, some z => some (x * 100 + y * 10 + z)
  | _, _, _ => none

def dateMs (y : Int) (mo d h mi s ms : Nat) : Option Int :=
  if 1 ≤ mo ∧ mo ≤ 12 ∧ 1 ≤ d ∧ d ≤ daysInMonth y mo ∧ h ≤ 23 ∧ mi ≤ 59 ∧ s ≤ 59 then
    some (daysFromCivil y mo d * 86400000 + (h : Int) * 3600000 +
      (mi : Int) * 60000 + (s : Int) * 1000 + (ms : Int))
  else none

/-- Time-of-day suffix after `YYYY-MM-DDTHH:MM`: `Z`, `:SSZ` or `:SS.mmmZ`. -/
def parseTimeRest (h mi : Nat) : List Char → Option (Nat × Nat × Nat × Nat)
  | ['Z'] => some (h, mi, 0, 0)
  | [':', s1, s2, 'Z'] =>
    (parse2 s1 s2).map fun s => (h, mi, s, 0)
  | [':', s1, s2, '.', m1, m2, m3, 'Z'] =>
    match parse2 s1 s2, parse3 m1 m2 m3 with
    | some s, some ms => some (h, mi, s, ms)
    | _, _ => none
  | _ => none

def jsDateList : List Char → Option Int
  | [y1, y2, y3, y4, '-', m1, m2, '-', d1, d2] =>
    match parse4 y1 y2 y3 y4, parse2 m1 m2, parse2 d1 d2 with
    | some y, some mo, some d => dateMs (y : Int) mo d 0 0 0 0
    | _, _, _ => none
  | y1 :: y2 :: y3 :: y4 :: '-' :: m1 :: m2 :: '-' :: d1 :: d2 :: 'T' ::
      h1 :: h2 :: ':' :: mi1 :: mi2 :: rest =>
    match parse4 y1 y2 y3 y4, parse2 m1 m2, parse2 d1 d2, parse2 h1 h2, parse2 mi1 mi2 with
    | some y, some mo, some d, some h, some mi =>
      match parseTimeRest h mi rest with
      | some (h, mi, s, ms) => dateMs (y : Int) mo d h mi s ms
      | none => none
    | _, _, _, _, _ => none
  | _ => none

/-- `new Date(s).getTime()`; `none` models `NaN` (an invalid date). -/
def jsDate (s : String) : Option Int := jsDateList s.toList

/-! ## `Array.prototype.sort(comparator)`

ES2019 requires `Array.prototype.sort` to be stable, and `SortCompare` maps a
comparator result of `NaN` to `+0`.  The model is a stable insertion sort
driven by `le a b := comparator a b ≤ 0`: each element is inserted after every
element it does not strictly precede, which preserves the original order of
comparator-equal elements. -/

def insertAfterLe (le : α → α → Bool) (x : α) : List α → List α
  | [] => [x]
  | y :: ys => if le y x then y :: insertAfterLe le x ys else x :: y :: ys

def jsSort (le : α → α → Bool) (l : List α) : List α :=
  l.foldl (fun acc x => insertAfterLe le x acc) []

theorem sublist_insertAfterLe (le : α → α → Bool) (x : α) :
    ∀ acc : List α, List.Sublist acc (insertAfterLe le x acc) := by
  intro acc
  induction acc with
  | nil => simp [insertAfterLe]
  | cons y ys ih =>
    simp only [insertAfterLe]
    by_cases h : le y x
    · simp only [h, if_true]
      exact List.Sublist.cons₂ y ih
    · simp only [h, if_false]
      exact List.Sublist.cons x (List.Sublist.refl _)

theorem self_mem_insertAfterLe (le : α → α → Bool) (x : α) :
    ∀ acc : List α, x ∈ insertAfterLe le x acc := by
  intro acc
  induction acc with
  | nil => simp [insertAfterLe]
  | cons y ys ih =>
    simp only [insertAfterLe]
    by_cases h : le y x
    · simp only [h, if_true]
      exact List.mem_cons_of_mem y ih
    · simp [h]

theorem perm_insertAfterLe (le : α → α → Bool) (x : α) :
    ∀ acc : List α, List.Perm (insertAfterLe le x acc) (x :: acc) := by
  intro acc
  induction acc with
  | nil => simp [insertAfterLe]
  | cons y ys ih =>
    simp only [insertAfterLe]
    by_cases h : le y x
    · simp only [h, if_true]
      exact (List.Perm.cons y ih).trans (List.Perm.swap x y ys)
    · simp [h]

theorem mem_insertAfterLe_iff (le : α → α → Bool) (x a : α) (acc : List α) :
    a ∈ insertAfterLe le x acc ↔ a = x ∨ a ∈ acc := by
  rw [(perm_insertAfterLe le x acc).mem_iff]; simp

/-- When the accumulated prefix is entirely skipped, insertion distributes
over the append. -/
theorem insertAfterLe_append (le : α → α → Bool) (x : α) (l₁ l₂ : List α)
    (h : ∀ z ∈ l₁, le z x = true) :
    insertAfterLe le x (l₁ ++ l₂) = l₁ ++ insertAfterLe le x l₂ := by
  induction l₁ with
  | nil => simp
  | cons y ys ih =>
    have hy : le y x = true := h y (by simp)
    have hrest := ih (fun z hz => h z (by simp [hz]))
    simp only [List.cons_append, insertAfterLe, hy, if_true]
    simp only [List.append_eq] at hrest ⊢
    rw [hrest]

theorem perm_jsSort (le : α → α → Bool) (l : List α) :
    List.Perm (jsSort le l) l := by
  suffices h : ∀ acc : List α, List.Perm (l.foldl (fun acc x => insertAfterLe le x acc) acc)
      (l.reverse ++ acc) by
    have := h []
    simpa [jsSort] using this.trans (by simp)
  induction l with
  | nil => intro acc; simp
  | cons x xs ih =>
    intro acc
    simp only [List.foldl_cons]
    refine (ih (insertAfterLe le x acc)).trans ?_
    have h1 : List.Perm (xs.reverse ++ insertAfterLe le x acc) (xs.reverse ++ (x :: acc)) :=
      List.Perm.append_left _ (perm_insertAfterLe le x acc)
    have h2 : (x :: xs).reverse ++ acc = xs.reverse ++ (x :: acc) := by
      simp [List.reverse_cons, List.append_assoc]
    rw [h2]
    exact h1

theorem length_jsSort (le : α → α → Bool) (l : List α) :
    (jsSort le l).length = l.length :=
  (perm_jsSort le l).length_eq

theorem mem_jsSort (le : α → α → Bool) (l : List α) (a : α) :
    a ∈ jsSort le l ↔ a ∈ l :=
  (perm_jsSort le l).mem_iff

/-- Insertion preserves `Pairwise S` for any `S` compatible with the
comparator in the following sense: skipped elements are `S`-below the new
element, a stopping element is strictly below it in a way (`T`) that pushes
through `S`, and `T`-then-`S` composes. -/
theorem pairwise_insertAfterLe (le : α → α → Bool) (S T : α → α → Prop) (x : α)
    (hle : ∀ a b, le a b = true → S a b)
    (hgt : ∀ a b, le a b = false → T b a)
    (hTS : ∀ a b c, T a b → S b c → S a c)
    (hT : ∀ a b, T a b → S a b) :
    ∀ acc : List α, acc.Pairwise S → (insertAfterLe le x acc).Pairwise S := by
  intro acc
  induction acc with
  | nil => intro _; simp [insertAfterLe]
  | cons y ys ih =>
    intro hp
    rw [List.pairwise_cons] at hp
    obtain ⟨hy, hys⟩ := hp
    simp only [insertAfterLe]
    by_cases h : le y x
    · simp only [h, if_true, List.pairwise_cons]
      refine ⟨?_, ih hys⟩
      intro z hz
      rcases (mem_insertAfterLe_iff le x z ys).mp hz with rfl | hzys
      · exact hle y z h
      · exact hy z hzys
    · have hf : le y x = false := by simpa using h
      simp only [hf, Bool.false_eq_true, if_false]
      rw [List.pairwise_cons]
      have hTx : T x y := hgt y x hf
      refine ⟨?_, List.Pairwise.cons hy hys⟩
      intro z hz
      rcases List.mem_cons.mp hz with rfl | hzys
      · exact hT x z hTx
      · exact hTS x y z hTx (hy z hzys)

theorem pairwise_jsSort (le : α → α → Bool) (S T : α → α → Prop)
    (hle : ∀ a b, le a b = true → S a b)
    (hgt : ∀ a b, le a b = false → T b a)
    (hTS : ∀ a b c, T a b → S b c → S a c)
    (hT : ∀ a b, T a b → S a b)
    (l : List α) : (jsSort le l).Pairwise S := by
  suffices h : ∀ acc : List α, acc.Pairwise S →
      (l.foldl (fun acc x => insertAfterLe le x acc) acc).Pairwise S by
    exact h [] (by simp)
  induction l with
  | nil => intro acc hacc; simpa using hacc
  | cons x xs ih =>
    intro acc hacc
    simp only [List.foldl_cons]
    exact ih _ (pairwise_insertAfterLe le S T x hle hgt hTS hT acc hacc)

/-! ## Cache Store and Fetch-And-Cache Orchestrator

`base-reader.js` is not part of the provided sources (only its subclasses and
callers are), so the shared cache store and `_fetchAndCache` pipeline are
modelled from the spec (§4.1, §4.2) and threaded as explicit state.  Time is
epoch milliseconds (`Nat`); the freshness window `CACHE_DURATION` is a
parameter, matching the spec's "fixed duration shared across all keys". -/

/-- Modelled from the spec: `base-reader.js` is missing from the sources; a
cache entry is `{ value, fetchedAt }` (spec §3, "CacheEntry"). -/
structure CacheEntry (α : Type) where
  value : α
  fetchedAt : Nat
deriving DecidableEq

/-- Modelled from the spec: the process-wide keyed Cache Store (§4.1), one
entry per string key. -/
abbrev Cache (α : Type) : Type := List (String × CacheEntry α)

def cacheLookup (c : Cache α) (k : String) : Option (CacheEntry α) :=
  (c.find? (fun p => p.1 = k)).map (fun p => p.2)

/-- Modelled from the spec: `set(key, value)` stores the value with the
current timestamp, replacing any prior entry (§4.1). -/
def cacheSet (c : Cache α) (k : String) (v : α) (now : Nat) : Cache α :=
  (k, ⟨v, now⟩) :: c.filter (fun p => p.1 ≠ k)

/-- Modelled from the spec: `invalidate(key | null)` removes the entry for
`key`; `null` (here `none`) removes all entries (§4.1).  Invalidating an
unknown key is a no-op (§7). -/
def invalidate (c : Cache α) (k : Option String) : Cache α :=
  match k with
  | none => []
  | some key => c.filter (fun p => p.1 ≠ key)

/-- An entry is fresh iff `now - fetchedAt < window` (spec §3). -/
def cacheFresh (c : Cache α) (k : String) (now dur : Nat) : Bool :=
  match cacheLookup c k with
  | some e => now - e.fetchedAt < dur
  | none => false

structure FetchOut (α : Type) where
  value : List α
  cache : Cache (List α)
  /-- `true` iff the TableSource (`sheets.values.get`) was invoked. -/
  fetched : Bool
deriving DecidableEq

/-- Modelled from the spec: steps 3-4 of the orchestrator — apply
`rowParser(row, index)` to every raw row, then the optional sorter. -/
def parseAndSortRows (rows : List (List String)) (rowParser : List String → Nat → α)
    (sorter : Option (α → α → Bool)) : List α :=
  let parsed := rows.enum.map (fun p => rowParser p.2 p.1)
  match sorter with
  | some le => jsSort le parsed
  | none => parsed

/-- Modelled from the spec: the generic `_fetchAndCache(key, range, rowParser,
sorter?)` orchestrator of the missing `base-reader.js` (§4.2): on a fresh hit
return the cached value with no I/O; otherwise call the TableSource (`resp`,
where `none` models a transport failure), parse every raw row, apply the
optional sorter, store and return.  A transport failure is not cached and
degrades to the empty sequence (§4.2 step 6). -/
def fetchAndCache (dur : Nat) (c : Cache (List α)) (now : Nat) (key : String)
    (resp : Option (List (List String))) (rowParser : List String → Nat → α)
    (sorter : Option (α → α → Bool)) : FetchOut α :=
  if cacheFresh c key now dur then
    ⟨((cacheLookup c key).map (fun e => e.value)).getD [], c, false⟩
  else
    match resp with
    | none => ⟨[], c, true⟩
    | some rows =>
      let sorted := parseAndSortRows rows rowParser sorter
      ⟨sorted, cacheSet c key sorted now, true⟩

/-! ## SystemReader (`src/data/system-reader.js`)

`getSystemConfig` and `getUsers` implement the cache check inline rather than
through `_fetchAndCache`; they are embedded directly from the source.  The
shared `this.cache` object is modelled as one record with a slot per cache key
this reader touches.  The JS truthiness test `this.cache[key] && this.cache[key].data`
always succeeds when an entry exists, because the stored data is an array or
an object (both truthy in JS). -/

/-- One parsed item of the system-settings sheet.  `color`, `value2`,
`value3`, `category` are `Option` because the five built-in default items
carry no such properties (`undefined`), while parsed rows store a string or
`null`. -/
structure SettingItem where
  value : String
  note : String
  order : Int
  color : Option String
  value2 : Option String
  value3 : Option String
  category : Option String
deriving DecidableEq

/-- The `settings` object: a string-keyed JS object whose keys iterate in
insertion order. -/
abbrev Settings : Type := List (String × List SettingItem)

def settingsGet (s : Settings) (k : String) : Option (List SettingItem) :=
  (s.find? (fun p => p.1 = k)).map (fun p => p.2)

/-- JS object assignment: an existing key keeps its position, a new key is
appended. -/
def settingsSet (s : Settings) (k : String) (v : List SettingItem) : Settings :=
  if (s.find? (fun p => p.1 = k)).isSome then
    s.map (fun p => if p.1 = k then (k, v) else p)
  else s ++ [(k, v)]

/-- `settings['事件類型']` default items (system-reader.js lines 45-53). -/
def defaultEventTypes : List SettingItem :=
  [⟨"general", "一般", 1, some "#6c757d", none, none, none⟩,
   ⟨"iot", "IOT", 2, some "#007bff", none, none, none⟩,
   ⟨"dt", "DT", 3, some "#28a745", none, none, none⟩,
   ⟨"dx", "DX", 4, some "#ffc107", none, none, none⟩,
   ⟨"legacy", "舊事件", 5, some "#dc3545", none, none, none⟩]

/-- `settings[type].find(i => i.value === item)` mutates the FIRST item with
the matching `value` in place. -/
def updateFirstItem (lst : List SettingItem) (item note order : String) : List SettingItem :=
  match lst with
  | [] => []
  | i :: rest =>
    if i.value = item then
      { i with
        note := if note = "" then item else note
        order := jsParseIntOr99 order } :: rest
    else i :: updateFirstItem rest item note order

/-- Process one settings row (`rows.slice(1).forEach(...)`): destructure nine
cells, require `enabled === 'TRUE' && type && item`, then update the first
item with the same `value` in place or push a new item. -/
def applySettingsRow (s : Settings) (row : List String) : Settings :=
  let type := row.getD 0 ""
  let item := row.getD 1 ""
  let order := row.getD 2 ""
  let enabled := row.getD 3 ""
  let note := row.getD 4 ""
  let color := row.getD 5 ""
  let value2 := row.getD 6 ""
  let value3 := row.getD 7 ""
  let category := row.getD 8 ""
  if enabled = "TRUE" ∧ type ≠ "" ∧ item ≠ "" then
    let lst := (settingsGet s type).getD []
    if (lst.find? (fun i => i.value = item)).isSome then
      settingsSet s type (updateFirstItem lst item note order)
    else
      settingsSet s type (lst ++ [{
        value := item,
        note := if note = "" then item else note,
        order := jsParseIntOr99 order,
        color := if color = "" then none else some color,
        value2 := if value2 = "" then none else some value2,
        value3 := if value3 = "" then none else some value3,
        category := some (if category = "" then "其他" else category) }])
  else s

def settingsLe (a b : SettingItem) : Bool := a.order - b.order ≤ 0

/-- The full success-path parse of `getSystemConfig`: seed defaults, fold the
data rows (skipping the header via `rows.slice(1)` guarded by
`rows.length > 1`), then sort every type's list by `order` ascending. -/
def parseSystemConfig (rows : List (List String)) : Settings :=
  let settings0 : Settings := [("事件類型", defaultEventTypes), ("日曆篩選規則", [])]
  let settings1 :=
    if rows.length > 1 then (rows.drop 1).foldl applySettingsRow settings0 else settings0
  settings1.map (fun p => (p.1, jsSort settingsLe p.2))

/-- One row of the `使用者名冊` sheet. -/
structure UserRec where
  rowIndex : Nat
  username : String
  passwordHash : String
  displayName : String
  role : String
deriving DecidableEq

/-- `row[k] ? row[k].trim() : ''`. -/
def cellTrim (row : List String) (k : Nat) : String :=
  let s := row.getD k ""
  if s = "" then "" else jsTrim s

def parseUserRow (row : List String) (index : Nat) : UserRec :=
  let role := row.getD 3 ""
  { rowIndex := index + 1,
    username := cellTrim row 0,
    passwordHash := cellTrim row 1,
    displayName := cellTrim row 2,
    role := if role = "" then "sales" else String.mk (jsToLowerList (jsTrimList role.toList)) }

def parseUsers (rows : List (List String)) : List UserRec :=
  (rows.enum.map (fun p => parseUserRow p.2 p.1)).filter
    (fun u => u.username ≠ "" ∧ u.passwordHash ≠ "")

/-- The slots of `this.cache` that SystemReader reads and writes. -/
structure SysCache where
  systemConfig : Option (CacheEntry Settings)
  users : Option (CacheEntry (List UserRec))
deriving DecidableEq

def emptySysCache : SysCache := ⟨none, none⟩

/-- The parts of the injected `config` that govern SystemReader behaviour. -/
structure SysConfig where
  /-- `this.config.DEFAULT_SETTINGS`; `none` models absent/`null`, so the
  error fallback `DEFAULT_SETTINGS || {}` degrades to the empty object. -/
  DEFAULT_SETTINGS : Option Settings
deriving DecidableEq

def entryFresh (e : Option (CacheEntry α)) (now dur : Nat) : Bool :=
  match e with
  | some entry => now - entry.fetchedAt < dur
  | none => false

structure SysRun (α : Type) where
  value : α
  cache : SysCache
  /-- `true` iff `sheets.spreadsheets.values.get` was invoked. -/
  fetched : Bool
deriving DecidableEq

/-- `SystemReader.getSystemConfig` with the cache threaded explicitly.
`resp = some rows` is a successful `values.get` response (`data.values || []`
already applied); `resp = none` is a thrown transport error, handled by the
`catch` block: log, return `DEFAULT_SETTINGS || {}`, leave the cache alone. -/
def getSystemConfig (dur : Nat) (cfg : SysConfig) (c : SysCache) (now : Nat)
    (resp : Option (List (List String))) : SysRun Settings :=
  if entryFresh c.systemConfig now dur then
    ⟨(c.systemConfig.map (fun e => e.value)).getD [], c, false⟩
  else
    match resp with
    | none => ⟨cfg.DEFAULT_SETTINGS.getD [], c, true⟩
    | some rows =>
      let settings := parseSystemConfig rows
      ⟨settings, { c with systemConfig := some ⟨settings, now⟩ }, true⟩

/-- `SystemReader.getUsers` with the cache threaded explicitly.  The `catch`
block returns `[]` and leaves the cache alone. -/
def getUsers (dur : Nat) (c : SysCache) (now : Nat)
    (resp : Option (List (List String))) : SysRun (List UserRec) :=
  if entryFresh c.users now dur then
    ⟨(c.users.map (fun e => e.value)).getD [], c, false⟩
  else
    match resp with
    | none => ⟨[], c, true⟩
    | some rows =>
      let allUsers := parseUsers rows
      ⟨allUsers, { c with users := some ⟨allUsers, now⟩ }, true⟩

/-- Modelled from the spec: `invalidateCache` lives in the missing
`base-reader.js`; per spec §4.1 it removes the entry for a key, and `null`
removes every entry.  Specialised to the two slots SystemReader uses; an
unknown key is a no-op (§7). -/
def sysInvalidateCache (c : SysCache) (k : Option String) : SysCache :=
  match k with
  | none => ⟨none, none⟩
  | some "systemConfig" => { c with systemConfig := none }
  | some "users" => { c with users := none }
  | some _ => c

/-! ## JS `Map` built by the `new Map(pairs)` constructor

The constructor iterates the pairs calling `set`, so a duplicate key keeps its
original position but its value is overwritten: the LAST pair with a given key
wins on lookup. -/

def jsMapSet (m : List (String × β)) (k : String) (v : β) : List (String × β) :=
  if (m.find? (fun p => p.1 = k)).isSome then
    m.map (fun p => if p.1 = k then (k, v) else p)
  else m ++ [(k, v)]

def jsMapOfPairs (pairs : List (String × β)) : List (String × β) :=
  pairs.foldl (fun m p => jsMapSet m p.1 p.2) []

def jsMapGet (m : List (String × β)) (k : String) : Option β :=
  (m.find? (fun p => p.1 = k)).map (fun p => p.2)

/-! ## AnnouncementReader (`src/data/announcement-reader.js`)

The field-index map `config.ANNOUNCEMENT_FIELDS` comes from the injected
configuration (not in the sources), so the parser is parameterised by it. -/

structure AnnouncementFields where
  ID : Nat
  TITLE : Nat
  CONTENT : Nat
  CREATOR : Nat
  CREATE_TIME : Nat
  LAST_UPDATE_TIME : Nat
  STATUS : Nat
  IS_PINNED : Nat
deriving DecidableEq

structure Announcement where
  rowIndex : Nat
  id : String
  title : String
  content : String
  creator : String
  createTime : String
  lastUpdateTime : String
  status : String
  isPinned : Bool
deriving DecidableEq

/-- The `rowParser` of `AnnouncementReader.getAnnouncements`: every string
field is `row[F.X] || ''` and `isPinned` is `row[F.IS_PINNED] === 'TRUE'`. -/
def announcementRowParser (F : AnnouncementFields) (row : List String) (index : Nat) :
    Announcement :=
  { rowIndex := index + 2,
    id := row.getD F.ID "",
    title := row.getD F.TITLE "",
    content := row.getD F.CONTENT "",
    creator := row.getD F.CREATOR "",
    createTime := row.getD F.CREATE_TIME "",
    lastUpdateTime := row.getD F.LAST_UPDATE_TIME "",
    status := row.getD F.STATUS "",
    isPinned := row.getD F.IS_PINNED "" = "TRUE" }

/-- The announcement comparator: pinned entries first, then
`new Date(b.lastUpdateTime) - new Date(a.lastUpdateTime)`; when either date is
invalid the subtraction is `NaN`, which ES `SortCompare` turns into `+0`. -/
def announcementCompare (a b : Announcement) : Int :=
  if a.isPinned ∧ ¬ b.isPinned then -1
  else if ¬ a.isPinned ∧ b.isPinned then 1
  else
    match jsDate b.lastUpdateTime, jsDate a.lastUpdateTime with
    | some tb, some ta => tb - ta
    | _, _ => 0

def announcementLe (a b : Announcement) : Bool := announcementCompare a b ≤ 0

/-- Model of `data.sort(comparator)`: a stable insertion sort by
`announcementCompare a b ≤ 0`.  ES `Array.prototype.sort` determines the
output only when the comparator is a consistent comparison function;
`announcementCompare` is consistent exactly on inputs whose every
`lastUpdateTime` parses (an invalid date produces `NaN` ties that break
transitivity, and the resulting order is then implementation-defined — a
TimSort engine can leave such a list in a different order than this model).
Theorems therefore use this definition only under an all-parseable
hypothesis, or on a two-element same-class tied list, where the single
comparison returns `+0` and every engine returns the input order. -/
def sortAnnouncements (l : List Announcement) : List Announcement :=
  jsSort announcementLe l

/-- `AnnouncementReader.getAnnouncements`, built on the (spec-modelled)
`_fetchAndCache` with key `'announcements'`. -/
def getAnnouncements (F : AnnouncementFields) (dur : Nat) (c : Cache (List Announcement))
    (now : Nat) (resp : Option (List (List String))) : FetchOut Announcement :=
  fetchAndCache dur c now "announcements" resp (announcementRowParser F)
    (some announcementLe)

/-! ## ContactReader (`src/data/contact-reader.js`) -/

structure ContactFields where
  TIME : Nat
  NAME : Nat
  COMPANY : Nat
  POSITION : Nat
  DEPARTMENT : Nat
  PHONE : Nat
  MOBILE : Nat
  EMAIL : Nat
  WEBSITE : Nat
  ADDRESS : Nat
  CONFIDENCE : Nat
  STATUS : Nat
  DRIVE_LINK : Nat
  LINE_USER_ID : Nat
  USER_NICKNAME : Nat
deriving DecidableEq

/-- A potential contact (raw business card) as parsed by
`ContactReader.getContacts`. -/
structure Contact where
  rowIndex : Nat
  createdTime : String
  name : String
  company : String
  position : String
  department : String
  phone : String
  mobile : String
  email : String
  website : String
  address : String
  confidence : String
  status : String
  driveLink : String
  cardImage : String
  lineUserId : String
  userNickname : String
deriving DecidableEq

def contactRowParser (F : ContactFields) (row : List String) (index : Nat) : Contact :=
  let driveLink := row.getD F.DRIVE_LINK ""
  { rowIndex := index + 2,
    createdTime := row.getD F.TIME "",
    name := row.getD F.NAME "",
    company := row.getD F.COMPANY "",
    position := row.getD F.POSITION "",
    department := row.getD F.DEPARTMENT "",
    phone := row.getD F.PHONE "",
    mobile := row.getD F.MOBILE "",
    email := row.getD F.EMAIL "",
    website := row.getD F.WEBSITE "",
    address := row.getD F.ADDRESS "",
    confidence := row.getD F.CONFIDENCE "",
    status := row.getD F.STATUS "",
    driveLink := driveLink,
    cardImage := driveLink,
    lineUserId := row.getD F.LINE_USER_ID "",
    userNickname := row.getD F.USER_NICKNAME "" }

/-- `getContacts` sorter: newest `createdTime` first; an invalid `dateB` sorts
`a` first, then an invalid `dateA` sorts `a` last. -/
def contactCompare (a b : Contact) : Int :=
  match jsDate b.createdTime, jsDate a.createdTime with
  | none, _ => -1
  | some _, none => 1
  | some tb, some ta => tb - ta

def contactLe (a b : Contact) : Bool := contactCompare a b ≤ 0

/-- `ContactReader.getContacts(limit)`: fetch-and-cache the full parsed,
sorted sheet under key `'contacts'`, then `slice(0, limit)` the result. -/
def getContacts (F : ContactFields) (limit : Nat) (dur : Nat)
    (c : Cache (List Contact)) (now : Nat) (resp : Option (List (List String))) :
    FetchOut Contact :=
  let out := fetchAndCache dur c now "contacts" resp (contactRowParser F) (some contactLe)
  { out with value := out.value.take limit }

/-- An official contact as parsed by `ContactReader.getContactList`
(fixed column positions 0..12). -/
structure ContactListRec where
  contactId : String
  sourceId : String
  name : String
  companyId : String
  department : String
  position : String
  mobile : String
  phone : String
  email : String
  createdTime : String
  lastUpdateTime : String
  creator : String
  lastModifier : String
deriving DecidableEq

def contactListRowParser (row : List String) : ContactListRec :=
  { contactId := row.getD 0 "",
    sourceId := row.getD 1 "",
    name := row.getD 2 "",
    companyId := row.getD 3 "",
    department := row.getD 4 "",
    position := row.getD 5 "",
    mobile := row.getD 6 "",
    phone := row.getD 7 "",
    email := row.getD 8 "",
    createdTime := row.getD 9 "",
    lastUpdateTime := row.getD 10 "",
    creator := row.getD 11 "",
    lastModifier := row.getD 12 "" }

/-- An opportunity-contact link row (`getAllOppContactLinks`). -/
structure OppContactLink where
  linkId : String
  opportunityId : String
  contactId : String
  createTime : String
  status : String
  creator : String
deriving DecidableEq

/-- A company record as produced by `CompanyReader.getCompanyList`.
`company-reader.js` is not among the sources; the record carries exactly the
fields its consumers in the sources read. -/
structure Company where
  rowIndex : Nat
  companyId : String
  companyName : String
  createdTime : String
  phone : String
  address : String
  county : String
  introduction : String
  companyType : String
  customerStage : String
  engagementRating : String
deriving DecidableEq

/-- `ContactReader._normalizeKey`: `String(str).toLowerCase().trim()`. -/
def normalizeKey (s : String) : String :=
  String.mk (jsTrimList (jsToLowerList s.toList))

/-- JS `Set` built by repeated `add`. -/
def setAdd (s : List String) (x : String) : List String :=
  if s.contains x then s else s ++ [x]

/-- The card-image map of `getLinkedContacts`: key
`normalize(name) + '|' + normalize(company)`, guarded by
`pc.name && pc.company && pc.driveLink`, with an explicit
`if (!potentialCardMap.has(key))` so the FIRST write wins. -/
def buildPotentialCardMap (pcs : List Contact) : List (String × String) :=
  pcs.foldl (fun m pc =>
    if pc.name ≠ "" ∧ pc.company ≠ "" ∧ pc.driveLink ≠ "" then
      let key := normalizeKey pc.name ++ "|" ++ normalizeKey pc.company
      if (m.find? (fun p => p.1 = key)).isSome then m else m ++ [(key, pc.driveLink)]
    else m) []

/-- The enriched contact returned by `getLinkedContacts`. -/
structure EnrichedContact where
  contactId : String
  sourceId : String
  name : String
  companyId : String
  department : String
  position : String
  mobile : String
  phone : String
  email : String
  companyName : String
  driveLink : String
deriving DecidableEq

/-- `ContactReader.getLinkedContacts(opportunityId)` as a pure function of the
four pre-fetched tables. -/
def getLinkedContacts (opportunityId : String) (allLinks : List OppContactLink)
    (allContacts : List ContactListRec) (allCompanies : List Company)
    (allPotentialContacts : List Contact) : List EnrichedContact :=
  let linkedContactIds := allLinks.foldl (fun s link =>
    if link.opportunityId = opportunityId ∧ link.status = "active" then
      setAdd s link.contactId
    else s) []
  if linkedContactIds.length = 0 then []
  else
    let companyNameMap := jsMapOfPairs (allCompanies.map (fun c => (c.companyId, c.companyName)))
    let potentialCardMap := buildPotentialCardMap allPotentialContacts
    (allContacts.filter (fun ct => linkedContactIds.contains ct.contactId)).map
      (fun ct =>
        let companyName := (jsMapGet companyNameMap ct.companyId).getD ""
        let driveLink :=
          if ct.name ≠ "" ∧ companyName ≠ "" then
            ((potentialCardMap.find? (fun p =>
              p.1 = normalizeKey ct.name ++ "|" ++ normalizeKey companyName)).map
              (fun p => p.2)).getD ""
          else ""
        { contactId := ct.contactId,
          sourceId := ct.sourceId,
          name := ct.name,
          companyId := ct.companyId,
          department := ct.department,
          position := ct.position,
          mobile := ct.mobile,
          phone := ct.phone,
          email := ct.email,
          companyName := companyName,
          driveLink := driveLink })

/-- JS `m.get(k) || fallback` on a string-valued `Map`: a miss yields
`undefined` and a stored empty string is falsy, so both fall back. -/
def jsStrOr (v : Option String) (fallback : String) : String :=
  match v with
  | some s => if s = "" then fallback else s
  | none => fallback

/-- The join step of `ContactReader.searchContactList`: each official contact
is decorated with `companyNameMap.get(companyId) || companyId`, where the map
is built by the `new Map(...)` constructor (last duplicate key wins). -/
def searchContactListJoin (allContacts : List ContactListRec)
    (allCompanies : List Company) : List (ContactListRec × String) :=
  let companyNameMap := jsMapOfPairs (allCompanies.map (fun c => (c.companyId, c.companyName)))
  allContacts.map (fun ct =>
    (ct, jsStrOr (jsMapGet companyNameMap ct.companyId) ct.companyId))

/-! ## CompanyService (`src/services/company-service.js`) -/

/-- Strings removed by `/股份有限公司|有限公司|公司/g`: a left-to-right scan
removing the alternatives (they start with distinct characters, so the
alternation order never matters at a given position).  The scan recurses on a
fuel counter so that it is structurally recursive and kernel-evaluable; one
unit of fuel is spent per position and the wrapper supplies `cs.length` fuel,
which the scan never exhausts. -/
def replaceCompanySuffixesGo : Nat → List Char → List Char
  | _, [] => []
  | 0, cs => cs
  | fuel + 1, c :: cs =>
    if (c :: cs).take 6 = "股份有限公司".toList then
      replaceCompanySuffixesGo fuel ((c :: cs).drop 6)
    else if (c :: cs).take 4 = "有限公司".toList then
      replaceCompanySuffixesGo fuel ((c :: cs).drop 4)
    else if (c :: cs).take 2 = "公司".toList then
      replaceCompanySuffixesGo fuel ((c :: cs).drop 2)
    else c :: replaceCompanySuffixesGo fuel cs

def replaceCompanySuffixes (cs : List Char) : List Char :=
  replaceCompanySuffixesGo cs.length cs

/-- ES regex `.` matches anything but a line terminator. -/
def regexLineTerm (c : Char) : Bool :=
  c = '\n' ∨ c = '\r' ∨ c = Char.ofNat 0x2028 ∨ c = Char.ofNat 0x2029

/-- Index of the last `)` reachable from here without crossing a line
terminator: the end of the greedy `\(.*\)` match. -/
def lastCloseParen (cs : List Char) : Option Nat :=
  (((cs.takeWhile (fun c => ¬ regexLineTerm c)).enum.filter
    (fun p => p.2 = ')')).map (fun p => p.1)).getLast?

/-- `replace(/\(.*\)/g, '')`: at each `(` that has a later `)` on the same
line, remove greedily up to the LAST such `)` and continue after it.  Fuelled
like `replaceCompanySuffixesGo`. -/
def stripParensGo : Nat → List Char → List Char
  | _, [] => []
  | 0, cs => cs
  | fuel + 1, c :: cs =>
    if c = '(' then
      match lastCloseParen cs with
      | some j => stripParensGo fuel (cs.drop (j + 1))
      | none => c :: stripParensGo fuel cs
    else c :: stripParensGo fuel cs

def stripParens (cs : List Char) : List Char :=
  stripParensGo cs.length cs

/-- `CompanyService._normalizeCompanyName`: lower-case, trim, strip the
corporate-suffix tokens, strip parenthetical segments, trim again; a falsy
input returns `''`. -/
def normalizeCompanyName (name : String) : String :=
  if name = "" then ""
  else
    String.mk (jsTrimList (stripParens (replaceCompanySuffixes
      (jsTrimList (jsToLowerList name.toList)))))

/-! ### Last-activity aggregation (`getCompanyListWithActivity`, steps 2-3) -/

structure Interaction where
  rowIndex : Nat
  interactionId : String
  opportunityId : String
  interactionTime : String
  eventType : String
  eventTitle : String
  contentSummary : String
  participants : String
  nextAction : String
  attachmentLink : String
  calendarEventId : String
  recorder : String
  createdTime : String
  companyId : String
deriving DecidableEq

/-- An event-log record; `event-log-reader.js` is not among the sources, the
record carries the fields `getCompanyListWithActivity` reads. -/
structure EventLog where
  companyId : String
  opportunityId : String
  createdTime : String
deriving DecidableEq

abbrev ActivityMap : Type := List (String × Int)

/-- The `updateActivity` helper: skip falsy ids/dates and `NaN` timestamps,
keep the maximum via `ts > (map.get(id) || 0)` on the `lastActivityMap`
(a JS `Map`). -/
def updateActivity (m : ActivityMap) (companyId dateStr : String) : ActivityMap :=
  if companyId = "" ∨ dateStr = "" then m
  else
    match jsDate dateStr with
    | none => m
    | some ts =>
      let current := (jsMapGet m companyId).getD 0
      if ts > current then jsMapSet m companyId ts else m

/-- Fold the two event streams.  For an interaction the code passes
`item.interactionTime || item.date`; interaction records carry no `date`
field, so an empty `interactionTime` falls through to `undefined` and is
skipped by the `!dateStr` guard — identical to passing `interactionTime`. -/
def buildActivityMap (interactions : List Interaction) (eventLogs : List EventLog) :
    ActivityMap :=
  let m := interactions.foldl (fun m it => updateActivity m it.companyId it.interactionTime) []
  eventLogs.foldl (fun m ev => updateActivity m ev.companyId ev.createdTime) m

/-- JS truthiness of a number-or-undefined (`!lastTs`): `undefined` and `0`
are falsy. -/
def numFalsy : Option Int → Bool
  | none => true
  | some v => v = 0

/-- Step 3 of `getCompanyListWithActivity` for one company: take the map hit,
fall back to the parsed creation time when the hit is falsy, and return the
epoch-milliseconds value behind `lastActivity` (`lastTs ? iso(lastTs) : null`;
the final `toISOString` conversion is injective on the milliseconds value, so
the timestamp itself is the meaningful result).  `none` models `null`. -/
def companyLastActivity (m : ActivityMap) (comp : Company) : Option Int :=
  let lastTs0 := jsMapGet m comp.companyId
  let lastTs :=
    if numFalsy lastTs0 ∧ comp.createdTime ≠ "" then
      match jsDate comp.createdTime with
      | some createdTs => some createdTs
      | none => lastTs0
    else lastTs0
  match lastTs with
  | some v => if v = 0 then none else some v
  | none => none

def activityDescLe (a b : Company × Option Int) : Bool :=
  (b.2.getD 0) - (a.2.getD 0) ≤ 0

/-- Steps 2-3 of `getCompanyListWithActivity` on the already-filtered company
list: annotate each company with its last-activity timestamp (`_sortTs` is
`lastTs || 0`) and sort by it descending. -/
def companyListWithActivity (companies : List Company) (interactions : List Interaction)
    (eventLogs : List EventLog) : List (Company × Option Int) :=
  let m := buildActivityMap interactions eventLogs
  jsSort activityDescLe (companies.map (fun comp => (comp, companyLastActivity m comp)))

/-! ## WeeklyBusinessReader (`data/weekly-business-reader.js`, v7.0.2) -/

structure WeeklySummaryRaw where
  weekId : String
  summaryContent : String
deriving DecidableEq

/-- `getWeeklySummary` (R4 patch): no cache; on success return the raw
`{weekId, summaryContent}` rows after the header (empty when
`rows.length <= 1`); on a transport error return `[]`. -/
def getWeeklySummary (resp : Option (List (List String))) : List WeeklySummaryRaw :=
  match resp with
  | none => []
  | some rows =>
    if rows.length ≤ 1 then []
    else (rows.drop 1).map (fun row => ⟨row.getD 0 "", row.getD 4 ""⟩)

/-- `WeeklyBusinessReader.invalidateCache`: calls
`super.invalidateCache('weeklyBusiness')` (the base method is spec-modelled
as `invalidate`). -/
def weeklyInvalidateCache (c : Cache α) : Cache α :=
  invalidate c (some "weeklyBusiness")

/-! ## Supporting lemmas for normalization (claim C3) -/

theorem jsLowerChar_idem (c : Char) : jsLowerChar (jsLowerChar c) = jsLowerChar c := by
  by_cases h : 65 ≤ c.toNat ∧ c.toNat ≤ 90
  · have hv : Nat.isValidChar (c.toNat + 32) := Or.inl (by omega)
    have ht : (Char.ofNat (c.toNat + 32)).toNat = c.toNat + 32 := by
      unfold Char.ofNat
      simp [hv]
      rfl
    simp only [jsLowerChar, h, and_self, if_true, ht]
    rw [if_neg (by omega)]
  · simp only [jsLowerChar, h, if_false]

theorem jsToLowerList_fixed (l : List Char) (h : ∀ c ∈ l, jsLowerChar c = c) :
    jsToLowerList l = l := by
  simp only [jsToLowerList]
  induction l with
  | nil => rfl
  | cons x xs ih =>
    simp only [List.map_cons]
    rw [h x (by simp), ih (fun c hc => h c (by simp [hc]))]

theorem mem_of_mem_jsToLowerList {c : Char} {l : List Char} (h : c ∈ jsToLowerList l) :
    jsLowerChar c = c := by
  simp only [jsToLowerList, List.mem_map] at h
  obtain ⟨d, _, rfl⟩ := h
  exact jsLowerChar_idem d

theorem dropWhile_head?_not (p : α → Bool) :
    ∀ (l : List α) (c : α), (l.dropWhile p).head? = some c → p c = false := by
  intro l
  induction l with
  | nil => intro c h; simp [List.dropWhile] at h
  | cons x xs ih =>
    intro c h
    rw [List.dropWhile_cons] at h
    by_cases hx : p x
    · simp [hx] at h; exact ih c h
    · simp [hx] at h; subst h; simpa using hx

theorem dropWhile_eq_self (p : α → Bool) (l : List α)
    (h : ∀ c, l.head? = some c → p c = false) : l.dropWhile p = l := by
  cases l with
  | nil => rfl
  | cons x xs =>
    have := h x rfl
    simp [List.dropWhile_cons, this]

theorem dropWhile_idem (p : α → Bool) (l : List α) :
    (l.dropWhile p).dropWhile p = l.dropWhile p :=
  dropWhile_eq_self p _ (dropWhile_head?_not p l)

theorem getLast?_dropWhile (p : α → Bool) (l : List α) (h : l.dropWhile p ≠ []) :
    (l.dropWhile p).getLast? = l.getLast? := by
  conv_rhs => rw [← List.takeWhile_append_dropWhile p l]
  exact (List.getLast?_append_of_ne_nil _ h).symm

theorem mem_of_mem_jsTrimList {c : α} {l : List α}
    {p : α → Bool} (h : c ∈ ((l.dropWhile p).reverse.dropWhile p).reverse) : c ∈ l := by
  rw [List.mem_reverse] at h
  have h1 := (List.dropWhile_sublist (l := (l.dropWhile p).reverse) (p := p)).mem h
  rw [List.mem_reverse] at h1
  exact (List.dropWhile_sublist (l := l) (p := p)).mem h1

theorem jsTrimList_idem (l : List Char) : jsTrimList (jsTrimList l) = jsTrimList l := by
  simp only [jsTrimList]
  set A := l.dropWhile jsWhitespace with hA
  set B := A.reverse.dropWhile jsWhitespace with hB
  have hBdrop : B.dropWhile jsWhitespace = B := by rw [hB]; exact dropWhile_idem _ _
  have hfront : B.reverse.dropWhile jsWhitespace = B.reverse := by
    apply dropWhile_eq_self
    intro c hc
    rw [List.head?_reverse] at hc
    by_cases hBnil : B = []
    · simp [hBnil] at hc
    · rw [hB] at hc
      rw [getLast?_dropWhile _ _ (hB ▸ hBnil)] at hc
      rw [List.getLast?_reverse] at hc
      exact dropWhile_head?_not jsWhitespace l c (hA ▸ hc)
  rw [hfront, List.reverse_reverse, hBdrop]

theorem mem_of_mem_replaceCompanySuffixesGo :
    ∀ (fuel : Nat) (cs : List Char) (c : Char),
      c ∈ replaceCompanySuffixesGo fuel cs → c ∈ cs := by
  intro fuel
  induction fuel with
  | zero =>
    intro cs c h
    cases cs <;> simp [replaceCompanySuffixesGo] at h
    simp [h]
  | succ f ih =>
    intro cs c h
    cases cs with
    | nil => simp [replaceCompanySuffixesGo] at h
    | cons x xs =>
      simp only [replaceCompanySuffixesGo] at h
      split at h
      · exact List.mem_of_mem_drop (ih _ c h)
      · split at h
        · exact List.mem_of_mem_drop (ih _ c h)
        · split at h
          · exact List.mem_of_mem_drop (ih _ c h)
          · rcases List.mem_cons.mp h with rfl | h2
            · exact List.mem_cons_self _ _
            · exact List.mem_cons_of_mem _ (ih _ c h2)

theorem mem_of_mem_stripParensGo :
    ∀ (fuel : Nat) (cs : List Char) (c : Char), c ∈ stripParensGo fuel cs → c ∈ cs := by
  intro fuel
  induction fuel with
  | zero =>
    intro cs c h
    cases cs <;> simp [stripParensGo] at h
    simp [h]
  | succ f ih =>
    intro cs c h
    cases cs with
    | nil => simp [stripParensGo] at h
    | cons x xs =>
      simp only [stripParensGo] at h
      split at h
      · split at h
        · exact List.mem_cons_of_mem _ (List.mem_of_mem_drop (ih _ c h))
        · rcases List.mem_cons.mp h with rfl | h2
          · exact List.mem_cons_self _ _
          · exact List.mem_cons_of_mem _ (ih _ c h2)
      · rcases List.mem_cons.mp h with rfl | h2
        · exact List.mem_cons_self _ _
        · exact List.mem_cons_of_mem _ (ih _ c h2)

/-! ## Claim C3: normalization idempotence -/

/-- C3 (counterexample).  The claim "normalize(normalize(s)) equals
normalize(s) for every input string s" is false on the code: stripping the
parenthetical segment of `"公(A)司"` creates a new occurrence of the suffix
token `"公司"`, so the first pass yields `"公司"` while the second pass
strips it down to `""`. -/
theorem normalizeCompanyName_not_idempotent :
    normalizeCompanyName (normalizeCompanyName "公(A)司") ≠ normalizeCompanyName "公(A)司" := by
  decide

/-- C3 (amended).  `CompanyService._normalizeCompanyName` is idempotent on
every input whose normalized form is already free of corporate-suffix tokens
and of removable parenthetical segments (i.e. the two replacement passes are
no-ops on it); on inputs whose single pass creates a new suffix token or
parenthetical, a second application can shrink the string further. -/
theorem normalizeCompanyName_idem_amended (s : String)
    (h1 : replaceCompanySuffixes (normalizeCompanyName s).toList =
      (normalizeCompanyName s).toList)
    (h2 : stripParens (normalizeCompanyName s).toList = (normalizeCompanyName s).toList) :
    normalizeCompanyName (normalizeCompanyName s) = normalizeCompanyName s := by
  by_cases hs : s = ""
  · subst hs
    rfl
  · by_cases ht : normalizeCompanyName s = ""
    · rw [ht]
      rfl
    · have hdef : normalizeCompanyName s =
          String.mk (jsTrimList (stripParens (replaceCompanySuffixes
            (jsTrimList (jsToLowerList s.toList))))) := by
        simp only [normalizeCompanyName, hs, if_false]
      have htl : (normalizeCompanyName s).toList =
          jsTrimList (stripParens (replaceCompanySuffixes
            (jsTrimList (jsToLowerList s.toList)))) := by
        rw [hdef]
        rfl
      have hlower : jsToLowerList (normalizeCompanyName s).toList =
          (normalizeCompanyName s).toList := by
        apply jsToLowerList_fixed
        intro c hc
        rw [htl] at hc
        have hc1 := mem_of_mem_jsTrimList (p := jsWhitespace) (by simpa [jsTrimList] using hc)
        have hc2 := mem_of_mem_stripParensGo _ _ _ hc1
        have hc3 := mem_of_mem_replaceCompanySuffixesGo _ _ _ hc2
        have hc4 := mem_of_mem_jsTrimList (p := jsWhitespace) (by simpa [jsTrimList] using hc3)
        exact mem_of_mem_jsToLowerList hc4
      have htrim : jsTrimList (normalizeCompanyName s).toList =
          (normalizeCompanyName s).toList := by
        rw [htl, jsTrimList_idem]
      have houter : normalizeCompanyName (normalizeCompanyName s) =
          String.mk (jsTrimList (stripParens (replaceCompanySuffixes
            (jsTrimList (jsToLowerList (normalizeCompanyName s).toList))))) := by
        conv_lhs => rw [normalizeCompanyName.eq_1]
        rw [if_neg ht]
      rw [houter, hlower, htrim, h1, h2, htrim]
      rfl

/-- C3 (witness for the amended theorem): `"ACME Co"` normalizes to a fixed
point, and the amended theorem applies to it. -/
theorem normalizeCompanyName_idem_amended_witness :
    replaceCompanySuffixes (normalizeCompanyName "ACME Co").toList =
        (normalizeCompanyName "ACME Co").toList ∧
      stripParens (normalizeCompanyName "ACME Co").toList =
        (normalizeCompanyName "ACME Co").toList ∧
      normalizeCompanyName (normalizeCompanyName "ACME Co") =
        normalizeCompanyName "ACME Co" :=
  ⟨by decide, by decide,
    normalizeCompanyName_idem_amended "ACME Co" (by decide) (by decide)⟩

/-! ## Supporting lemmas for the join maps (claim C4) -/

theorem find?_map_keyPreserving (f : String × β → String × β)
    (k : String) (hf : ∀ p, (f p).1 = p.1) (m : List (String × β)) :
    (m.map f).find? (fun p => p.1 = k) = (m.find? (fun p => p.1 = k)).map f := by
  induction m with
  | nil => rfl
  | cons p ps ih =>
    simp only [List.map_cons, List.find?_cons]
    by_cases h : p.1 = k
    · rw [hf p] at *
      simp [h]
    · have h2 : ((f p).1 = k) = False := by rw [hf p]; simp [h]
      simp only [hf p, h, h2, decide_False]
      exact ih

theorem jsMapGet_jsMapSet (m : List (String × β)) (k0 : String) (v : β) (k : String) :
    jsMapGet (jsMapSet m k0 v) k = if k0 = k then some v else jsMapGet m k := by
  simp only [jsMapSet]
  by_cases hmem : (m.find? (fun p => p.1 = k0)).isSome
  · simp only [hmem, if_true, jsMapGet]
    rw [find?_map_keyPreserving _ k (fun p => by by_cases hp : p.1 = k0 <;> simp [hp]) m]
    by_cases hk : k0 = k
    · subst hk
      obtain ⟨q, hq⟩ := Option.isSome_iff_exists.mp hmem
      have hq1 : q.1 = k0 := by simpa using List.find?_some hq
      simp [hq, hq1]
    · cases hfind : m.find? (fun p => p.1 = k) with
      | none => simp [hk]
      | some q =>
        have hq1 : q.1 = k := by simpa using List.find?_some hfind
        have hne : ¬ q.1 = k0 := by rw [hq1]; exact fun h => hk h.symm
        simp [hk, hne]
  · simp only [hmem, if_false, jsMapGet, List.find?_append]
    by_cases hk : k0 = k
    · subst hk
      rw [Option.not_isSome_iff_eq_none] at hmem
      simp [hmem]
    · have : ¬ (k0 = k) := hk
      cases hfind : m.find? (fun p => p.1 = k) <;> simp [hfind, hk]

/-- Lookup in a constructor-built JS `Map` returns the value of the LAST pair
with the requested key. -/
theorem jsMapGet_jsMapOfPairs (pairs : List (String × β)) (k : String) :
    jsMapGet (jsMapOfPairs pairs) k =
      (pairs.reverse.find? (fun q => q.1 = k)).map (fun q => q.2) := by
  suffices h : ∀ (pairs : List (String × β)) (m : List (String × β)),
      jsMapGet (pairs.foldl (fun m p => jsMapSet m p.1 p.2) m) k =
        ((pairs.reverse.find? (fun q => q.1 = k)).map (fun q => q.2)).or (jsMapGet m k) by
    have := h pairs []
    simpa [jsMapGet] using this
  intro pairs
  induction pairs with
  | nil => intro m; simp
  | cons p rest ih =>
    intro m
    simp only [List.foldl_cons, List.reverse_cons, List.find?_append]
    rw [ih]
    rw [jsMapGet_jsMapSet]
    by_cases hk : p.1 = k
    · simp only [List.find?_cons, hk, decide_True]
      cases hrest : rest.reverse.find? (fun q => q.1 = k) <;> simp [hk]
    · simp only [List.find?_cons, hk, decide_False]
      cases hrest : rest.reverse.find? (fun q => q.1 = k) <;> simp [hk, List.find?_nil]

/-- The eligibility guard of the potential-card map. -/
def cardEligible (pc : Contact) : Bool :=
  pc.name ≠ "" ∧ pc.company ≠ "" ∧ pc.driveLink ≠ ""

def cardKey (pc : Contact) : String :=
  normalizeKey pc.name ++ "|" ++ normalizeKey pc.company

def cardMapGet (m : List (String × String)) (k : String) : Option String :=
  (m.find? (fun p => p.1 = k)).map (fun p => p.2)

/-- Appending a fresh pair to the map affects lookups of its key only. -/
theorem cardMapGet_append_single (m : List (String × String)) (key dl k : String) :
    cardMapGet (m ++ [(key, dl)]) k =
      (cardMapGet m k).or (if key = k then some dl else none) := by
  simp only [cardMapGet, List.find?_append]
  cases hm : m.find? (fun p => p.1 = k) with
  | some q => simp
  | none =>
    by_cases hk : key = k
    · simp [List.find?_cons, hk]
    · simp [List.find?_cons, hk]

/-- Lookup in the card map returns the drive link of the FIRST eligible
potential contact whose key matches: the explicit `has` check makes the first
write win. -/
theorem cardMapGet_buildPotentialCardMap (pcs : List Contact) (k : String) :
    cardMapGet (buildPotentialCardMap pcs) k =
      (pcs.find? (fun pc => cardEligible pc && decide (cardKey pc = k))).map
        (fun pc => pc.driveLink) := by
  suffices h : ∀ (pcs : List Contact) (m : List (String × String)),
      cardMapGet (pcs.foldl (fun m pc =>
          if pc.name ≠ "" ∧ pc.company ≠ "" ∧ pc.driveLink ≠ "" then
            let key := normalizeKey pc.name ++ "|" ++ normalizeKey pc.company
            if (m.find? (fun p => p.1 = key)).isSome then m else m ++ [(key, pc.driveLink)]
          else m) m) k =
        (cardMapGet m k).or ((pcs.find? (fun pc =>
            cardEligible pc && decide (cardKey pc = k))).map (fun pc => pc.driveLink)) by
    have := h pcs []
    simpa [buildPotentialCardMap, cardMapGet] using this
  intro pcs
  induction pcs with
  | nil => intro m; simp [cardMapGet]
  | cons pc rest ih =>
    intro m
    have hkey : (normalizeKey pc.name ++ "|" ++ normalizeKey pc.company) = cardKey pc := rfl
    simp only [List.foldl_cons]
    by_cases he : pc.name ≠ "" ∧ pc.company ≠ "" ∧ pc.driveLink ≠ ""
    · have heb : cardEligible pc = true := by
        simp only [cardEligible]
        simp [he.1, he.2.1, he.2.2]
      rw [if_pos he]
      simp only [hkey]
      by_cases hh : (m.find? (fun p => p.1 = cardKey pc)).isSome
      · rw [if_pos hh, ih, List.find?_cons]
        by_cases hkk : cardKey pc = k
        · rw [show (cardEligible pc && decide (cardKey pc = k)) = true by simp [heb, hkk]]
          obtain ⟨q, hq⟩ := Option.isSome_iff_exists.mp hh
          have hq1 : q.1 = cardKey pc := by simpa using List.find?_some hq
          have hmk : cardMapGet m k = some q.2 := by
            simp only [cardMapGet]
            rw [← hkk, hq]
            rfl
          rw [hmk]
          cases rest.find? (fun pc => cardEligible pc && decide (cardKey pc = k)) <;> rfl
        · rw [show (cardEligible pc && decide (cardKey pc = k)) = false by simp [hkk]]
      · rw [if_neg hh, ih, cardMapGet_append_single, Option.or_assoc, List.find?_cons]
        by_cases hkk : cardKey pc = k
        · rw [show (cardEligible pc && decide (cardKey pc = k)) = true by simp [heb, hkk]]
          cases cardMapGet m k <;> simp [hkk]
        · rw [show (cardEligible pc && decide (cardKey pc = k)) = false by simp [hkk]]
          simp [hkk]
    · rw [if_neg he, ih, List.find?_cons]
      have heb : cardEligible pc = false := by
        simp only [cardEligible]
        simpa using he
      rw [show (cardEligible pc && decide (cardKey pc = k)) = false by simp [heb]]

/-! ## Claim C4: join-map collision policy -/

/-- C4 (counterexample).  The claim "every join lookup map resolves a
colliding key to the FIRST entry's value" is false for the
companyId-to-name map of `searchContactList`: it is built with
`new Map(pairs)`, whose repeated `set` makes the LAST duplicate win.  With
two companies sharing id `"C1"` (names `"Alpha"` then `"Beta"`), the joined
contact shows `"Beta"`, not the first entry's `"Alpha"`. -/
theorem joinMap_first_wins_counterexample :
    (searchContactListJoin
        [⟨"CT1", "", "Pat", "C1", "", "", "", "", "", "", "", "", ""⟩]
        [⟨2, "C1", "Alpha", "", "", "", "", "", "", "", ""⟩,
         ⟨3, "C1", "Beta", "", "", "", "", "", "", "", ""⟩]).map (fun p => p.2) = ["Beta"] ∧
      ("Beta" : String) ≠ "Alpha" :=
  ⟨by decide, by decide⟩

/-- C4 (amended).  The two join-map constructions follow different collision
policies: the normalized name-and-company card map of `getLinkedContacts`
(guarded by an explicit `has` check) is first-write-wins — lookup returns the
first eligible entry with the colliding key — while the companyId-to-name
maps of `searchContactList` and `getLinkedContacts`, built with the JS `Map`
constructor, are last-write-wins — lookup returns the value of the last pair
with the colliding key. -/
theorem joinMap_policy_amended :
    (∀ (pcs : List Contact) (k : String),
        cardMapGet (buildPotentialCardMap pcs) k =
          (pcs.find? (fun pc => cardEligible pc && decide (cardKey pc = k))).map
            (fun pc => pc.driveLink)) ∧
      (∀ (pairs : List (String × String)) (k : String),
        jsMapGet (jsMapOfPairs pairs) k =
          (pairs.reverse.find? (fun q => q.1 = k)).map (fun q => q.2)) :=
  ⟨cardMapGet_buildPotentialCardMap, jsMapGet_jsMapOfPairs⟩

/-! ## Supporting lemmas for the cache (claims C1, C2, C6, C10) -/

/-- An entry that is stale (or absent) stays stale at any later time. -/
theorem entryFresh_mono (e : Option (CacheEntry α)) (t1 t2 dur : Nat) (h12 : t1 ≤ t2)
    (h : entryFresh e t1 dur = false) : entryFresh e t2 dur = false := by
  cases e with
  | none => rfl
  | some entry =>
    simp only [entryFresh, decide_eq_false_iff_not] at h ⊢
    intro hlt
    exact h (by omega)

theorem cacheLookup_cacheSet_self (c : Cache α) (k : String) (v : α) (now : Nat) :
    cacheLookup (cacheSet c k v now) k = some ⟨v, now⟩ := by
  simp [cacheLookup, cacheSet, List.find?_cons]

theorem cacheFresh_mono (c : Cache α) (k : String) (t1 t2 dur : Nat) (h12 : t1 ≤ t2)
    (h : cacheFresh c k t1 dur = false) : cacheFresh c k t2 dur = false := by
  cases hc : cacheLookup c k with
  | none => simp [cacheFresh, hc]
  | some e =>
    simp only [cacheFresh, hc, decide_eq_false_iff_not] at h ⊢
    intro hlt
    exact h (by omega)

theorem cacheLookup_invalidate_self (c : Cache α) (k : String) :
    cacheLookup (invalidate c (some k)) k = none := by
  simp only [invalidate, cacheLookup]
  induction c with
  | nil => rfl
  | cons p ps ih =>
    by_cases h : p.1 = k
    · simp [List.filter_cons, h, ih]
    · simp only [List.filter_cons]
      rw [if_pos (by simpa using h)]
      rw [List.find?_cons]
      rw [show (decide (p.1 = k)) = false by simpa using h]
      exact ih

theorem cacheFresh_invalidate_self (c : Cache α) (k : String) (now dur : Nat) :
    cacheFresh (invalidate c (some k)) k now dur = false := by
  simp [cacheFresh, cacheLookup_invalidate_self]

/-! ## Claim C1: freshness — at most one TableSource call per window -/

/-- C1.  Two reads of the same key inside the freshness window, with no
intervening invalidation, hit the TableSource at most once and return
value-equal results.  Shown for the two inline cache checks of
`SystemReader` (`getUsers`, `getSystemConfig`) and for the generic
(spec-modelled) `_fetchAndCache` orchestrator: in each case, if the entry
left by the first call is still fresh at the second call's time, the second
call performs no TableSource call and returns the first call's value. -/
theorem cache_freshness_at_most_one_fetch
    (dur : Nat) (cfg : SysConfig) (c : SysCache) (t1 t2 : Nat)
    (r1 r2 r1' r2' : Option (List (List String))) (h12 : t1 ≤ t2) :
    (entryFresh (getUsers dur c t1 r1).cache.users t2 dur = true →
      (getUsers dur (getUsers dur c t1 r1).cache t2 r2).fetched = false ∧
      (getUsers dur (getUsers dur c t1 r1).cache t2 r2).value = (getUsers dur c t1 r1).value ∧
      (if (getUsers dur c t1 r1).fetched then 1 else 0) +
        (if (getUsers dur (getUsers dur c t1 r1).cache t2 r2).fetched then 1 else 0) ≤ 1) ∧
    (entryFresh (getSystemConfig dur cfg c t1 r1').cache.systemConfig t2 dur = true →
      (getSystemConfig dur cfg (getSystemConfig dur cfg c t1 r1').cache t2 r2').fetched = false ∧
      (getSystemConfig dur cfg (getSystemConfig dur cfg c t1 r1').cache t2 r2').value =
        (getSystemConfig dur cfg c t1 r1').value) ∧
    (∀ (α : Type) (c' : Cache (List α)) (k : String)
        (ra rb : Option (List (List String))) (parser : List String → Nat → α)
        (sorter : Option (α → α → Bool)),
      cacheFresh (fetchAndCache dur c' t1 k ra parser sorter).cache k t2 dur = true →
      (fetchAndCache dur (fetchAndCache dur c' t1 k ra parser sorter).cache t2 k rb
        parser sorter).fetched = false ∧
      (fetchAndCache dur (fetchAndCache dur c' t1 k ra parser sorter).cache t2 k rb
        parser sorter).value = (fetchAndCache dur c' t1 k ra parser sorter).value) := by
  refine ⟨?_, ?_, ?_⟩
  · intro hf
    by_cases h1 : entryFresh c.users t1 dur = true
    · simp only [getUsers, h1, if_true] at hf ⊢
      simp [hf]
    · have h1f : entryFresh c.users t1 dur = false := by simpa using h1
      cases r1 with
      | none =>
        simp only [getUsers, h1f, Bool.false_eq_true, if_false] at hf
        rw [entryFresh_mono c.users t1 t2 dur h12 h1f] at hf
        simp at hf
      | some rows =>
        simp only [getUsers, h1f, Bool.false_eq_true, if_false] at hf ⊢
        simp [getUsers, hf]
  · intro hf
    by_cases h1 : entryFresh c.systemConfig t1 dur = true
    · simp only [getSystemConfig, h1, if_true] at hf ⊢
      simp [hf]
    · have h1f : entryFresh c.systemConfig t1 dur = false := by simpa using h1
      cases r1' with
      | none =>
        simp only [getSystemConfig, h1f, Bool.false_eq_true, if_false] at hf
        rw [entryFresh_mono c.systemConfig t1 t2 dur h12 h1f] at hf
        simp at hf
      | some rows =>
        simp only [getSystemConfig, h1f, Bool.false_eq_true, if_false] at hf ⊢
        simp [getSystemConfig, hf]
  · intro α c' k ra rb parser sorter hf
    by_cases h1 : cacheFresh c' k t1 dur = true
    · simp only [fetchAndCache, h1, if_true] at hf ⊢
      simp [hf]
    · have h1f : cacheFresh c' k t1 dur = false := by simpa using h1
      cases ra with
      | none =>
        simp only [fetchAndCache, h1f, Bool.false_eq_true, if_false] at hf
        rw [cacheFresh_mono c' k t1 t2 dur h12 h1f] at hf
        simp at hf
      | some rows =>
        simp only [fetchAndCache, h1f, Bool.false_eq_true, if_false] at hf ⊢
        simp [hf, cacheLookup_cacheSet_self]

/-- C1 (witness): starting from the empty cache, a fetch at time 0 and a
re-read at time 5 (window 1000) hit the TableSource once in total — the
second call does not even look at its response (here a transport failure). -/
theorem cache_freshness_at_most_one_fetch_witness :
    (0 : Nat) ≤ 5 ∧
      entryFresh (getUsers 1000 emptySysCache 0
        (some [["u", "h", "Dana", "ADMIN"]])).cache.users 5 1000 = true ∧
      ((getUsers 1000 (getUsers 1000 emptySysCache 0
          (some [["u", "h", "Dana", "ADMIN"]])).cache 5 none).fetched = false ∧
        (getUsers 1000 (getUsers 1000 emptySysCache 0
          (some [["u", "h", "Dana", "ADMIN"]])).cache 5 none).value =
          (getUsers 1000 emptySysCache 0 (some [["u", "h", "Dana", "ADMIN"]])).value ∧
        (if (getUsers 1000 emptySysCache 0 (some [["u", "h", "Dana", "ADMIN"]])).fetched
            then 1 else 0) +
          (if (getUsers 1000 (getUsers 1000 emptySysCache 0
              (some [["u", "h", "Dana", "ADMIN"]])).cache 5 none).fetched then 1 else 0) ≤ 1) :=
  ⟨by decide, by decide,
    (cache_freshness_at_most_one_fetch 1000 ⟨none⟩ emptySysCache 0 5
      (some [["u", "h", "Dana", "ADMIN"]]) none none none (by decide)).1 (by decide)⟩

/-! ## Claim C2: invalidation forces refresh -/

/-- C2.  `invalidate(K)` followed by a read of `K` always triggers a
TableSource call regardless of the freshness window, and `invalidate(null)`
clears every key, so the next access to any key fetches.  Shown for the
spec-modelled cache store and `_fetchAndCache` (the `base-reader.js`
implementation is not among the sources), for `SystemReader`'s slots driven
by `SystemController.invalidateCache` (`invalidate(null)`), and for
`WeeklyBusinessReader.invalidateCache` (`invalidate('weeklyBusiness')`). -/
theorem invalidate_forces_refresh :
    (∀ (α : Type) (dur : Nat) (c : Cache (List α)) (now : Nat) (k : String)
        (resp : Option (List (List String))) (parser : List String → Nat → α)
        (sorter : Option (α → α → Bool)),
      (fetchAndCache dur (invalidate c (some k)) now k resp parser sorter).fetched = true) ∧
      (∀ (α : Type) (c : Cache α) (k : String), cacheLookup (invalidate c none) k = none) ∧
      (∀ (α : Type) (dur : Nat) (c : Cache (List α)) (now : Nat) (k : String)
          (resp : Option (List (List String))) (parser : List String → Nat → α)
          (sorter : Option (α → α → Bool)),
        (fetchAndCache dur (invalidate c none) now k resp parser sorter).fetched = true) ∧
      (∀ (dur : Nat) (c : SysCache) (now : Nat) (resp : Option (List (List String))),
        (getUsers dur (sysInvalidateCache c (some "users")) now resp).fetched = true) ∧
      (∀ (dur : Nat) (cfg : SysConfig) (c : SysCache) (now : Nat)
          (resp : Option (List (List String))),
        (getSystemConfig dur cfg (sysInvalidateCache c none) now resp).fetched = true ∧
        (getUsers dur (sysInvalidateCache c none) now resp).fetched = true) ∧
      (∀ (α : Type) (dur : Nat) (c : Cache (List α)) (now : Nat)
          (resp : Option (List (List String))) (parser : List String → Nat → α)
          (sorter : Option (α → α → Bool)),
        (fetchAndCache dur (weeklyInvalidateCache c) now "weeklyBusiness"
          resp parser sorter).fetched = true) := by
  refine ⟨?_, ?_, ?_, ?_, ?_, ?_⟩
  · intro α dur c now k resp parser sorter
    simp only [fetchAndCache, cacheFresh_invalidate_self, Bool.false_eq_true, if_false]
    cases resp <;> rfl
  · intro α c k
    rfl
  · intro α dur c now k resp parser sorter
    simp only [fetchAndCache]
    rw [show cacheFresh (invalidate c none) k now dur = false from rfl]
    simp only [Bool.false_eq_true, if_false]
    cases resp <;> rfl
  · intro dur c now resp
    simp only [getUsers, sysInvalidateCache, entryFresh, Bool.false_eq_true, if_false]
    cases resp <;> rfl
  · intro dur cfg c now resp
    constructor
    · simp only [getSystemConfig, sysInvalidateCache, entryFresh, Bool.false_eq_true, if_false]
      cases resp <;> rfl
    · simp only [getUsers, sysInvalidateCache, entryFresh, Bool.false_eq_true, if_false]
      cases resp <;> rfl
  · intro α dur c now resp parser sorter
    simp only [fetchAndCache, weeklyInvalidateCache, cacheFresh_invalidate_self,
      Bool.false_eq_true, if_false]
    cases resp <;> rfl

/-! ## Claim C6: transport failures are not cached -/

/-- C6.  When the TableSource call fails, the reader caches nothing (the
cache state is returned unchanged), a policy-defined fallback is returned
(`DEFAULT_SETTINGS || {}` for `getSystemConfig`, `[]` for `getUsers` and the
weekly summary), and staleness persists, so any later call attempts a fresh
TableSource fetch instead of serving a cached error state. -/
theorem transport_failure_not_cached
    (dur : Nat) (cfg : SysConfig) (c : SysCache) (now now2 : Nat) (h12 : now ≤ now2)
    (hcfg : entryFresh c.systemConfig now dur = false)
    (husr : entryFresh c.users now dur = false) :
    getSystemConfig dur cfg c now none = ⟨cfg.DEFAULT_SETTINGS.getD [], c, true⟩ ∧
      getUsers dur c now none = ⟨[], c, true⟩ ∧
      getWeeklySummary none = [] ∧
      (getSystemConfig dur cfg (getSystemConfig dur cfg c now none).cache now2 none).fetched =
        true ∧
      (getUsers dur (getUsers dur c now none).cache now2 none).fetched = true := by
  have hc : getSystemConfig dur cfg c now none = ⟨cfg.DEFAULT_SETTINGS.getD [], c, true⟩ := by
    simp [getSystemConfig, hcfg]
  have hu : getUsers dur c now none = ⟨[], c, true⟩ := by
    simp [getUsers, husr]
  refine ⟨hc, hu, rfl, ?_, ?_⟩
  · rw [hc]
    simp [getSystemConfig, entryFresh_mono c.systemConfig now now2 dur h12 hcfg]
  · rw [hu]
    simp [getUsers, entryFresh_mono c.users now now2 dur h12 husr]

/-- C6 (witness): a failed fetch at time 0 on the empty cache leaves it
empty, returns the fallbacks, and the retry at time 7 fetches again. -/
theorem transport_failure_not_cached_witness :
    (0 : Nat) ≤ 7 ∧
      entryFresh (emptySysCache).systemConfig 0 1000 = false ∧
      entryFresh (emptySysCache).users 0 1000 = false ∧
      (getSystemConfig 1000 ⟨none⟩ emptySysCache 0 none = ⟨[], emptySysCache, true⟩ ∧
        getUsers 1000 emptySysCache 0 none = ⟨[], emptySysCache, true⟩ ∧
        getWeeklySummary none = [] ∧
        (getSystemConfig 1000 ⟨none⟩
          (getSystemConfig 1000 ⟨none⟩ emptySysCache 0 none).cache 7 none).fetched = true ∧
        (getUsers 1000 (getUsers 1000 emptySysCache 0 none).cache 7 none).fetched = true) :=
  ⟨by decide, by decide, by decide,
    transport_failure_not_cached 1000 ⟨none⟩ emptySysCache 0 7 (by decide) (by decide)
      (by decide)⟩

/-! ## Claim C10: `getContacts(limit)` returns a prefix and caches the full list -/

/-- C10.  `ContactReader.getContacts(L)` returns exactly the first
`min(L, N)` records of the fully parsed and sorted sequence of `N` records,
and the limit never affects what is cached: on a miss the full sorted
sequence is stored under the `'contacts'` key whatever `L` is, the produced
cache state and fetch behaviour are identical for any two limits, and a
later call within the freshness window is served from the cached full
sequence with no TableSource call — a larger limit then returns a superset
prefix (`value(L2).take L1 = value(L1)` for `L1 ≤ L2`). -/
theorem getContacts_limit_prefix
    (F : ContactFields) (dur : Nat) (c c2 : Cache (List Contact)) (now now2 : Nat)
    (rows : List (List String)) (limit l1 l2 : Nat)
    (resp resp2 : Option (List (List String))) (full : List Contact) (t0 : Nat)
    (hmiss : cacheFresh c "contacts" now dur = false) (hl : l1 ≤ l2)
    (hlook : cacheLookup c2 "contacts" = some ⟨full, t0⟩) (hfresh : now2 - t0 < dur) :
    (getContacts F limit dur c now (some rows)).value =
        (jsSort contactLe (rows.enum.map (fun p => contactRowParser F p.2 p.1))).take limit ∧
      (getContacts F limit dur c now (some rows)).value.length = min limit rows.length ∧
      cacheLookup (getContacts F limit dur c now (some rows)).cache "contacts" =
        some ⟨jsSort contactLe (rows.enum.map (fun p => contactRowParser F p.2 p.1)), now⟩ ∧
      (getContacts F l1 dur c now resp).cache = (getContacts F l2 dur c now resp).cache ∧
      (getContacts F l1 dur c now resp).fetched = (getContacts F l2 dur c now resp).fetched ∧
      (getContacts F l2 dur c now resp2).value.take l1 =
        (getContacts F l1 dur c now resp2).value ∧
      (getContacts F l2 dur c2 now2 resp).fetched = false ∧
      (getContacts F l2 dur c2 now2 resp).value = full.take l2 := by
  have hfull : (fetchAndCache dur c now "contacts" (some rows)
      (contactRowParser F) (some contactLe)).value =
      jsSort contactLe (rows.enum.map (fun p => contactRowParser F p.2 p.1)) := by
    simp [fetchAndCache, parseAndSortRows, hmiss]
  have hc2fresh : cacheFresh c2 "contacts" now2 dur = true := by
    simp [cacheFresh, hlook, hfresh]
  refine ⟨?_, ?_, ?_, ?_, ?_, ?_, ?_, ?_⟩
  · simp only [getContacts]
    rw [hfull]
  · simp only [getContacts]
    rw [hfull]
    rw [List.length_take, length_jsSort]
    simp
  · simp only [getContacts]
    simp [fetchAndCache, parseAndSortRows, hmiss, cacheLookup_cacheSet_self]
  · simp [getContacts]
  · simp [getContacts]
  · simp only [getContacts]
    rw [List.take_take, Nat.min_eq_left hl]
  · simp [getContacts, fetchAndCache, hc2fresh]
  · simp only [getContacts, fetchAndCache, hc2fresh, if_true, hlook]
    rfl

/-- Concrete inputs for the C10 witness. -/
def c10F : ContactFields := ⟨0, 1, 2, 3, 4, 5, 6, 7, 8, 9, 10, 11, 12, 13, 14⟩

def c10Rows : List (List String) :=
  [["2026-01-02", "Ann", "Acme"], ["2026-01-03", "Bob", "Beta"]]

def c10Full : List Contact :=
  jsSort contactLe (c10Rows.enum.map (fun p => contactRowParser c10F p.2 p.1))

def c10Cache2 : Cache (List Contact) := [("contacts", ⟨c10Full, 0⟩)]

/-- C10 (witness): with two concrete rows, a limit-1 call returns the first
record of the sorted pair, caches both, and a fresh limit-2 call at time 5 is
served from the cache without a TableSource call. -/
theorem getContacts_limit_prefix_witness :
    cacheFresh ([] : Cache (List Contact)) "contacts" 0 1000 = false ∧
      (1 : Nat) ≤ 2 ∧
      cacheLookup c10Cache2 "contacts" = some ⟨c10Full, 0⟩ ∧
      (5 : Nat) - 0 < 1000 ∧
      ((getContacts c10F 1 1000 [] 0 (some c10Rows)).value =
          (jsSort contactLe (c10Rows.enum.map
            (fun p => contactRowParser c10F p.2 p.1))).take 1 ∧
        (getContacts c10F 1 1000 [] 0 (some c10Rows)).value.length = min 1 c10Rows.length ∧
        cacheLookup (getContacts c10F 1 1000 [] 0 (some c10Rows)).cache "contacts" =
          some ⟨jsSort contactLe (c10Rows.enum.map
            (fun p => contactRowParser c10F p.2 p.1)), 0⟩ ∧
        (getContacts c10F 1 1000 [] 0 none).cache = (getContacts c10F 2 1000 [] 0 none).cache ∧
        (getContacts c10F 1 1000 [] 0 none).fetched =
          (getContacts c10F 2 1000 [] 0 none).fetched ∧
        (getContacts c10F 2 1000 [] 0 none).value.take 1 =
          (getContacts c10F 1 1000 [] 0 none).value ∧
        (getContacts c10F 2 1000 c10Cache2 5 none).fetched = false ∧
        (getContacts c10F 2 1000 c10Cache2 5 none).value = c10Full.take 2) :=
  ⟨by decide, by decide, by decide, by decide,
    getContacts_limit_prefix c10F 1000 [] c10Cache2 0 5 c10Rows 1 1 2 none none c10Full 0
      (by decide) (by decide) (by decide) (by decide)⟩

/-! ## Claim C7: rowParsers are total, one malformed row never aborts a fetch -/

/-- C7.  The row parsers are total functions: a row shorter than the
field-index map (here witnessed on the title/name columns and on the
pinned-flag column) degrades to empty-string fields and `isPinned = false`;
`isPinned` is true exactly when the cell is the literal `'TRUE'`; the empty
row parses to the all-default record; and the whole fetch maps the parser
over every raw row, so a malformed row never aborts the batch — the parsed
sequence has one record per raw row. -/
theorem rowParser_total_defaults
    (F : AnnouncementFields) (G : ContactFields) (dur : Nat)
    (c : Cache (List Announcement)) (now : Nat) (rows : List (List String))
    (row : List String) (i : Nat)
    (hmiss : cacheFresh c "announcements" now dur = false)
    (ht : row.length ≤ F.TITLE) (hp : row.length ≤ F.IS_PINNED)
    (hn : row.length ≤ G.NAME) :
    ((getAnnouncements F dur c now (some rows)).value).length = rows.length ∧
      announcementRowParser F [] i = ⟨i + 2, "", "", "", "", "", "", "", false⟩ ∧
      ((announcementRowParser F row i).isPinned = true ↔ row.getD F.IS_PINNED "" = "TRUE") ∧
      (announcementRowParser F row i).title = "" ∧
      (announcementRowParser F row i).isPinned = false ∧
      contactRowParser G [] i =
        ⟨i + 2, "", "", "", "", "", "", "", "", "", "", "", "", "", "", "", ""⟩ ∧
      (contactRowParser G row i).name = "" := by
  refine ⟨?_, ?_, ?_, ?_, ?_, ?_, ?_⟩
  · simp [getAnnouncements, fetchAndCache, parseAndSortRows, hmiss, length_jsSort]
  · simp [announcementRowParser]
  · simp [announcementRowParser]
  · simp [announcementRowParser, List.getElem?_eq_none ht]
  · simp [announcementRowParser, List.getElem?_eq_none hp]
  · simp [contactRowParser]
  · simp [contactRowParser, List.getElem?_eq_none hn]

/-- C7 (witness): a one-cell row against the standard field maps. -/
theorem rowParser_total_defaults_witness :
    cacheFresh ([] : Cache (List Announcement)) "announcements" 0 1000 = false ∧
      (["x"] : List String).length ≤ 1 ∧
      (["x"] : List String).length ≤ 7 ∧
      (["x"] : List String).length ≤ 1 ∧
      (((getAnnouncements ⟨0, 1, 2, 3, 4, 5, 6, 7⟩ 1000 [] 0 (some [[]])).value).length =
          ([[]] : List (List String)).length ∧
        announcementRowParser ⟨0, 1, 2, 3, 4, 5, 6, 7⟩ [] 0 =
          ⟨0 + 2, "", "", "", "", "", "", "", false⟩ ∧
        ((announcementRowParser ⟨0, 1, 2, 3, 4, 5, 6, 7⟩ ["x"] 0).isPinned = true ↔
          (["x"] : List String).getD 7 "" = "TRUE") ∧
        (announcementRowParser ⟨0, 1, 2, 3, 4, 5, 6, 7⟩ ["x"] 0).title = "" ∧
        (announcementRowParser ⟨0, 1, 2, 3, 4, 5, 6, 7⟩ ["x"] 0).isPinned = false ∧
        contactRowParser ⟨0, 1, 2, 3, 4, 5, 6, 7, 8, 9, 10, 11, 12, 13, 14⟩ [] 0 =
          ⟨0 + 2, "", "", "", "", "", "", "", "", "", "", "", "", "", "", "", ""⟩ ∧
        (contactRowParser ⟨0, 1, 2, 3, 4, 5, 6, 7, 8, 9, 10, 11, 12, 13, 14⟩ ["x"] 0).name = "") :=
  ⟨by decide, by decide, by decide, by decide,
    rowParser_total_defaults ⟨0, 1, 2, 3, 4, 5, 6, 7⟩
      ⟨0, 1, 2, 3, 4, 5, 6, 7, 8, 9, 10, 11, 12, 13, 14⟩ 1000 [] 0 [[]] ["x"] 0
      (by decide) (by decide) (by decide) (by decide)⟩

/-! ## Supporting lemma for claim C9 -/

theorem foldl_setAdd_no_match (oid : String) (links : List OppContactLink)
    (s : List String)
    (h : ∀ link ∈ links, ¬(link.opportunityId = oid ∧ link.status = "active")) :
    links.foldl (fun s link =>
      if link.opportunityId = oid ∧ link.status = "active" then
        setAdd s link.contactId
      else s) s = s := by
  induction links generalizing s with
  | nil => rfl
  | cons l ls ih =>
    simp only [List.foldl_cons]
    rw [if_neg (h l (by simp))]
    exact ih s (fun link hm => h link (by simp [hm]))

/-! ## Claim C9: unmatched joins in `getLinkedContacts` degrade to empty -/

/-- C9.  In the four-way join of `getLinkedContacts`: when no active link
matches the opportunity id the result is the empty sequence; when an enriched
contact's `companyId` misses the company map its `companyName` is the empty
string; and when its normalized `name|companyName` key misses the
potential-contacts card map its `driveLink` is the empty string — no lookup
failure raises an error. -/
theorem linked_contacts_join_miss
    (oid oid2 : String) (links linksB linksC : List OppContactLink)
    (cts ctsB ctsC : List ContactListRec) (comps compsB compsC : List Company)
    (pcs pcsB pcsC : List Contact) (ec ec2 : EnrichedContact)
    (hnolink : ∀ link ∈ links, ¬(link.opportunityId = oid ∧ link.status = "active"))
    (hec : ec ∈ getLinkedContacts oid linksB ctsB compsB pcsB)
    (hmapmiss : jsMapGet (jsMapOfPairs (compsB.map (fun c => (c.companyId, c.companyName))))
      ec.companyId = none)
    (hec2 : ec2 ∈ getLinkedContacts oid2 linksC ctsC compsC pcsC)
    (hcardmiss : cardMapGet (buildPotentialCardMap pcsC)
      (normalizeKey ec2.name ++ "|" ++ normalizeKey ec2.companyName) = none) :
    getLinkedContacts oid links cts comps pcs = [] ∧
      ec.companyName = "" ∧
      ec2.driveLink = "" := by
  refine ⟨?_, ?_, ?_⟩
  · simp only [getLinkedContacts]
    rw [foldl_setAdd_no_match oid links [] hnolink]
    rfl
  · simp only [getLinkedContacts] at hec
    by_cases hempty : (linksB.foldl (fun s link =>
        if link.opportunityId = oid ∧ link.status = "active" then
          setAdd s link.contactId
        else s) []).length = 0
    · rw [if_pos hempty] at hec
      simp at hec
    · rw [if_neg hempty] at hec
      rw [List.mem_map] at hec
      obtain ⟨ct, hct, hecdef⟩ := hec
      subst hecdef
      dsimp only at hmapmiss ⊢
      rw [hmapmiss]
      rfl
  · simp only [getLinkedContacts] at hec2
    by_cases hempty : (linksC.foldl (fun s link =>
        if link.opportunityId = oid2 ∧ link.status = "active" then
          setAdd s link.contactId
        else s) []).length = 0
    · rw [if_pos hempty] at hec2
      simp at hec2
    · rw [if_neg hempty] at hec2
      rw [List.mem_map] at hec2
      obtain ⟨ct, hct, hecdef⟩ := hec2
      subst hecdef
      dsimp only at hcardmiss ⊢
      by_cases hguard : ct.name ≠ "" ∧
          (jsMapGet (jsMapOfPairs (compsC.map (fun c => (c.companyId, c.companyName))))
            ct.companyId).getD "" ≠ ""
      · rw [if_pos hguard]
        simp only [cardMapGet] at hcardmiss
        rw [hcardmiss]
        rfl
      · rw [if_neg hguard]

/-- Concrete inputs for the C9 witness. -/
def c9InactiveLink : OppContactLink := ⟨"L1", "OPP1", "CT1", "", "inactive", ""⟩

def c9ActiveLink : OppContactLink := ⟨"L1", "OPP1", "CT1", "", "active", ""⟩

def c9Ct : ContactListRec := ⟨"CT1", "", "Pat", "CX", "", "", "", "", "", "", "", "", ""⟩

def c9Comp : Company := ⟨2, "CX", "Acme", "", "", "", "", "", "", "", ""⟩

def c9Ec : EnrichedContact := ⟨"CT1", "", "Pat", "CX", "", "", "", "", "", "", ""⟩

def c9Ec2 : EnrichedContact := ⟨"CT1", "", "Pat", "CX", "", "", "", "", "", "Acme", ""⟩

/-- C9 (witness): an inactive link yields the empty result; a contact whose
company id has no company record joins with `companyName = ""`; a contact
with no matching business card joins with `driveLink = ""`. -/
theorem linked_contacts_join_miss_witness :
    (∀ link ∈ [c9InactiveLink], ¬(link.opportunityId = "OPP1" ∧ link.status = "active")) ∧
      c9Ec ∈ getLinkedContacts "OPP1" [c9ActiveLink] [c9Ct] [] [] ∧
      jsMapGet (jsMapOfPairs (([] : List Company).map (fun c => (c.companyId, c.companyName))))
        c9Ec.companyId = none ∧
      c9Ec2 ∈ getLinkedContacts "OPP1" [c9ActiveLink] [c9Ct] [c9Comp] [] ∧
      cardMapGet (buildPotentialCardMap [])
        (normalizeKey c9Ec2.name ++ "|" ++ normalizeKey c9Ec2.companyName) = none ∧
      (getLinkedContacts "OPP1" [c9InactiveLink] [] [] [] = [] ∧
        c9Ec.companyName = "" ∧ c9Ec2.driveLink = "") :=
  ⟨by decide, by decide, by decide, by decide, by decide,
    linked_contacts_join_miss "OPP1" "OPP1" [c9InactiveLink] [c9ActiveLink] [c9ActiveLink]
      [] [c9Ct] [c9Ct] [] [] [c9Comp] [] [] [] c9Ec c9Ec2
      (by decide) (by decide) (by decide) (by decide) (by decide)⟩

/-! ## Supporting lemmas for the activity aggregation (claim C8) -/

theorem jsMapGet_updateActivity_ne (m : ActivityMap) (cid' d cid : String)
    (h : cid' ≠ cid) : jsMapGet (updateActivity m cid' d) cid = jsMapGet m cid := by
  by_cases h0 : cid' = "" ∨ d = ""
  · simp [updateActivity, h0]
  · simp only [updateActivity, h0, if_false]
    cases hd : jsDate d with
    | none => rfl
    | some ts =>
      by_cases hgt : ts > (jsMapGet m cid').getD 0
      · simp only [hgt, if_true]
        rw [jsMapGet_jsMapSet]
        rw [if_neg h]
      · simp [hgt]

theorem foldl_updateActivity_ne {γ : Type} (f g : γ → String) (L : List γ) (cid : String)
    (h : ∀ x ∈ L, f x ≠ cid) (m : ActivityMap) :
    jsMapGet (L.foldl (fun m x => updateActivity m (f x) (g x)) m) cid = jsMapGet m cid := by
  induction L generalizing m with
  | nil => rfl
  | cons x xs ih =>
    simp only [List.foldl_cons]
    rw [ih (fun y hy => h y (by simp [hy])) _,
      jsMapGet_updateActivity_ne m (f x) (g x) cid (h x (by simp))]

theorem foldl_updateActivity_inv {γ : Type} (f g : γ → String) (cid : String) (ts : Int)
    (L : List γ) (hall : ∀ x ∈ L, f x = cid → jsDate (g x) = some ts) (m : ActivityMap)
    (hm : jsMapGet m cid = none ∨ jsMapGet m cid = some ts) :
    jsMapGet (L.foldl (fun m x => updateActivity m (f x) (g x)) m) cid = none ∨
      jsMapGet (L.foldl (fun m x => updateActivity m (f x) (g x)) m) cid = some ts := by
  induction L generalizing m with
  | nil => exact hm
  | cons x xs ih =>
    simp only [List.foldl_cons]
    apply ih (fun y hy hc => hall y (by simp [hy]) hc)
    by_cases hx : f x = cid
    · have hgx := hall x (by simp) hx
      by_cases hc0 : f x = "" ∨ g x = ""
      · simp only [updateActivity, hc0, if_true]
        exact hm
      · simp only [updateActivity, hc0, if_false, hgx]
        rcases hm with hm | hm
        · rw [hx, hm]
          by_cases hp : ts > (none : Option Int).getD 0
          · rw [if_pos hp]
            right
            rw [jsMapGet_jsMapSet]
            rw [if_pos rfl]
          · rw [if_neg hp]
            left
            exact hm
        · rw [hx, hm]
          rw [if_neg (by simp)]
          right
          exact hm
    · rw [jsMapGet_updateActivity_ne m (f x) (g x) cid hx]
      exact hm

theorem foldl_updateActivity_keep {γ : Type} (f g : γ → String) (cid : String) (ts : Int)
    (L : List γ) (hall : ∀ x ∈ L, f x = cid → jsDate (g x) = some ts) (m : ActivityMap)
    (hm : jsMapGet m cid = some ts) :
    jsMapGet (L.foldl (fun m x => updateActivity m (f x) (g x)) m) cid = some ts := by
  induction L generalizing m with
  | nil => exact hm
  | cons x xs ih =>
    simp only [List.foldl_cons]
    apply ih (fun y hy hc => hall y (by simp [hy]) hc)
    by_cases hx : f x = cid
    · have hgx := hall x (by simp) hx
      by_cases hc0 : f x = "" ∨ g x = ""
      · simp only [updateActivity, hc0, if_true]
        exact hm
      · simp only [updateActivity, hc0, if_false, hgx]
        rw [hx, hm]
        rw [if_neg (by simp)]
        exact hm
    · rw [jsMapGet_updateActivity_ne m (f x) (g x) cid hx]
      exact hm

theorem updateActivity_hit (m : ActivityMap) (cid d : String) (ts : Int)
    (hcid : cid ≠ "") (hd : jsDate d = some ts) (hpos : 0 < ts)
    (hm : jsMapGet m cid = none ∨ jsMapGet m cid = some ts) :
    jsMapGet (updateActivity m cid d) cid = some ts := by
  have hdne : d ≠ "" := by
    intro h
    rw [h] at hd
    exact absurd hd (by simp [jsDate, jsDateList])
  simp only [updateActivity]
  rw [if_neg (by simp [hcid, hdne])]
  rw [hd]
  rcases hm with hm | hm
  · rw [hm]
    dsimp only
    rw [if_pos (by simpa using hpos)]
    rw [jsMapGet_jsMapSet]
    rw [if_pos rfl]
  · rw [hm]
    dsimp only
    rw [if_neg (by simp)]
    exact hm

theorem activityMap_zero_events (ints : List Interaction) (logs : List EventLog) (cid : String)
    (h0i : ∀ it ∈ ints, it.companyId ≠ cid) (h0e : ∀ ev ∈ logs, ev.companyId ≠ cid) :
    jsMapGet (buildActivityMap ints logs) cid = none := by
  simp only [buildActivityMap]
  rw [foldl_updateActivity_ne (fun ev => ev.companyId) (fun ev => ev.createdTime) logs cid h0e,
    foldl_updateActivity_ne (fun it => it.companyId) (fun it => it.interactionTime) ints cid h0i]
  rfl

theorem activityMap_single_event (ints : List Interaction) (logs : List EventLog)
    (cid : String) (ts : Int) (it0 : Interaction)
    (hmem : it0 ∈ ints) (hcid : it0.companyId = cid) (hcidne : cid ≠ "")
    (hall : ∀ it ∈ ints, it.companyId = cid → jsDate it.interactionTime = some ts)
    (hpos : 0 < ts) (h1e : ∀ ev ∈ logs, ev.companyId ≠ cid) :
    jsMapGet (buildActivityMap ints logs) cid = some ts := by
  simp only [buildActivityMap]
  rw [foldl_updateActivity_ne (fun ev => ev.companyId) (fun ev => ev.createdTime) logs cid h1e]
  obtain ⟨A, B, hAB⟩ := List.append_of_mem hmem
  subst hAB
  rw [List.foldl_append, List.foldl_cons]
  apply foldl_updateActivity_keep (fun it => it.companyId) (fun it => it.interactionTime) cid ts
    B (fun y hy hc => hall y (by simp [hy]) hc)
  rw [hcid]
  apply updateActivity_hit _ cid _ ts hcidne (hall it0 (by simp) hcid) hpos
  apply foldl_updateActivity_inv (fun it => it.companyId) (fun it => it.interactionTime) cid ts
    A (fun y hy hc => hall y (by simp [hy]) hc)
  left
  rfl

theorem companyLastActivity_creation (m : ActivityMap) (comp : Company) (cts : Int)
    (hnone : jsMapGet m comp.companyId = none)
    (hc : jsDate comp.createdTime = some cts) (h0 : cts ≠ 0) :
    companyLastActivity m comp = some cts := by
  have hne : comp.createdTime ≠ "" := by
    intro h
    rw [h] at hc
    exact absurd hc (by simp [jsDate, jsDateList])
  simp only [companyLastActivity, hnone, numFalsy]
  rw [if_pos (by simp [hne]), hc]
  simp [h0]

theorem companyLastActivity_event (m : ActivityMap) (comp : Company) (ts : Int)
    (hsome : jsMapGet m comp.companyId = some ts) (hpos : 0 < ts) :
    companyLastActivity m comp = some ts := by
  have hne : ts ≠ 0 := by omega
  simp only [companyLastActivity, hsome, numFalsy]
  rw [if_neg (by simp [hne])]
  simp [hne]

/-! ## Claim C8: last-activity aggregation -/

/-- Concrete inputs for the C8 counterexample: a company created exactly at
the Unix epoch, and a company with one valid pre-epoch interaction. -/
def c8CompEpoch : Company :=
  ⟨2, "C1", "Epoch Co", "1970-01-01T00:00:00.000Z", "", "", "", "", "", "", ""⟩

def c8CompOld : Company := ⟨2, "C2", "Old Co", "1950-01-01", "", "", "", "", "", "", ""⟩

def c8ItOld : Interaction :=
  ⟨2, "I1", "", "1960-01-01", "", "", "", "", "", "", "", "", "1955-01-01", "C2"⟩

/-- C8 (counterexample).  The claim fails at the Unix epoch because the code
tests timestamps for JS truthiness: a company with zero events whose
recorded creation timestamp is exactly `1970-01-01T00:00:00.000Z` (epoch
milliseconds 0) gets `lastActivity = null`, not its creation timestamp; and
a single valid interaction dated before the epoch (negative milliseconds,
here 1960 against a 1950 creation) is dropped by `ts > (map.get(id) || 0)`,
so `lastActivity` falls back to the creation time instead of the event
time. -/
theorem lastActivity_epoch_counterexample :
    jsDate c8CompEpoch.createdTime = some 0 ∧
      companyLastActivity (buildActivityMap [] []) c8CompEpoch = none ∧
      (jsDate c8ItOld.interactionTime).isSome ∧
      companyLastActivity (buildActivityMap [c8ItOld] []) c8CompOld =
        jsDate c8CompOld.createdTime ∧
      jsDate c8CompOld.createdTime ≠ jsDate c8ItOld.interactionTime := by
  refine ⟨by decide, by decide, by decide, by decide, by decide⟩

/-- C8 (amended).  In the last-activity aggregation of
`getCompanyListWithActivity`: a company with zero contributing events gets
its creation timestamp, provided that timestamp parses to a nonzero
epoch-milliseconds value; a company whose only contributing events are one
valid interaction timestamp strictly after the Unix epoch gets that event's
timestamp (whatever its relation to the creation time); events with
invalid or unparseable timestamps are skipped, never errors; and every
company in the input appears in the output paired with exactly this computed
value. -/
theorem lastActivity_amended
    (ints ints2 : List Interaction) (logs logs2 : List EventLog)
    (comp comp2 comp3 : Company) (cts ts : Int) (it0 : Interaction)
    (companies : List Company) (m' : ActivityMap) (cidd dd : String)
    (h0i : ∀ it ∈ ints, it.companyId ≠ comp.companyId)
    (h0e : ∀ ev ∈ logs, ev.companyId ≠ comp.companyId)
    (hcts : jsDate comp.createdTime = some cts) (hcts0 : cts ≠ 0)
    (hmem : it0 ∈ ints2) (hcid : it0.companyId = comp2.companyId)
    (hcidne : comp2.companyId ≠ "")
    (hall : ∀ it ∈ ints2, it.companyId = comp2.companyId →
      jsDate it.interactionTime = some ts)
    (hpos : 0 < ts)
    (h1e : ∀ ev ∈ logs2, ev.companyId ≠ comp2.companyId)
    (hbad : jsDate dd = none)
    (hcm : comp3 ∈ companies) :
    companyLastActivity (buildActivityMap ints logs) comp = some cts ∧
      companyLastActivity (buildActivityMap ints2 logs2) comp2 = some ts ∧
      updateActivity m' cidd dd = m' ∧
      ∃ pr ∈ companyListWithActivity companies ints logs,
        pr.1 = comp3 ∧ pr.2 = companyLastActivity (buildActivityMap ints logs) comp3 := by
  refine ⟨?_, ?_, ?_, ?_⟩
  · exact companyLastActivity_creation _ comp cts
      (activityMap_zero_events ints logs comp.companyId h0i h0e) hcts hcts0
  · exact companyLastActivity_event _ comp2 ts
      (activityMap_single_event ints2 logs2 comp2.companyId ts it0 hmem hcid hcidne hall hpos
        h1e) hpos
  · by_cases h0 : cidd = "" ∨ dd = ""
    · simp [updateActivity, h0]
    · simp [updateActivity, h0, hbad]
  · refine ⟨(comp3, companyLastActivity (buildActivityMap ints logs) comp3), ?_, rfl, rfl⟩
    simp only [companyListWithActivity]
    rw [mem_jsSort]
    exact List.mem_map_of_mem _ hcm

/-- Concrete inputs for the C8 witness. -/
def c8Comp : Company := ⟨2, "C1", "Acme", "2026-01-01", "", "", "", "", "", "", ""⟩

def c8Comp2 : Company := ⟨3, "C2", "Beta", "2026-01-01", "", "", "", "", "", "", ""⟩

def c8It : Interaction :=
  ⟨2, "I1", "", "2026-01-05", "", "", "", "", "", "", "", "", "2026-01-05", "C2"⟩

/-- C8 (witness): a company with no events gets its creation timestamp, a
company with one valid 2026 interaction gets the interaction timestamp, an
unparseable date is a no-op, and both companies appear in the aggregated
output with those values. -/
theorem lastActivity_amended_witness :
    (∀ it ∈ [c8It], it.companyId ≠ c8Comp.companyId) ∧
      jsDate c8Comp.createdTime = some 1767225600000 ∧
      (1767225600000 : Int) ≠ 0 ∧
      c8It ∈ [c8It] ∧
      (∀ it ∈ [c8It], it.companyId = c8Comp2.companyId →
        jsDate it.interactionTime = some 1767571200000) ∧
      (0 : Int) < 1767571200000 ∧
      jsDate "not-a-date" = none ∧
      c8Comp2 ∈ [c8Comp, c8Comp2] ∧
      (companyLastActivity (buildActivityMap [c8It] []) c8Comp = some 1767225600000 ∧
        companyLastActivity (buildActivityMap [c8It] []) c8Comp2 = some 1767571200000 ∧
        updateActivity [] "C9" "not-a-date" = [] ∧
        ∃ pr ∈ companyListWithActivity [c8Comp, c8Comp2] [c8It] [],
          pr.1 = c8Comp2 ∧ pr.2 = companyLastActivity (buildActivityMap [c8It] []) c8Comp2) :=
  ⟨by decide, by decide, by decide, by decide, by decide, by decide, by decide, by decide,
    lastActivity_amended [c8It] [c8It] [] [] c8Comp c8Comp2 c8Comp2 1767225600000
      1767571200000 c8It [c8Comp, c8Comp2] [] "C9" "not-a-date"
      (by decide) (by decide) (by decide) (by decide) (by decide) (by decide) (by decide)
      (by decide) (by decide) (by decide) (by decide) (by decide)⟩

/-! ## Supporting lemmas for the announcement sorter (claim C5) -/

/-- Primary sort key: pinned records first. -/
def annRank (a : Announcement) : Nat := if a.isPinned then 0 else 1

/-- The (non-strict) order the sorted output satisfies: lower rank first,
and inside a rank class every pair of VALID timestamps is descending.
Records with invalid timestamps are unconstrained beyond their rank. -/
def annS (a b : Announcement) : Prop :=
  annRank a < annRank b ∨
    (annRank a = annRank b ∧ ∀ ta tb, jsDate a.lastUpdateTime = some ta →
      jsDate b.lastUpdateTime = some tb → tb ≤ ta)

/-- The strict order that makes the insertion stop: lower rank, or same rank
with both timestamps valid and strictly descending. -/
def annT (a b : Announcement) : Prop :=
  annRank a < annRank b ∨
    (annRank a = annRank b ∧ ∃ ta tb, jsDate a.lastUpdateTime = some ta ∧
      jsDate b.lastUpdateTime = some tb ∧ tb < ta)

theorem annRank_lt_iff (x y : Announcement) :
    annRank x < annRank y ↔ (x.isPinned = true ∧ y.isPinned = false) := by
  cases hx : x.isPinned <;> cases hy : y.isPinned <;> simp [annRank, hx, hy]

theorem annRank_eq_iff (x y : Announcement) :
    annRank x = annRank y ↔ x.isPinned = y.isPinned := by
  cases hx : x.isPinned <;> cases hy : y.isPinned <;> simp [annRank, hx, hy]

theorem annS_rank_le (a b : Announcement) (h : annS a b) : annRank a ≤ annRank b := by
  rcases h with h | ⟨h, _⟩
  · omega
  · omega

theorem annLe_S (a b : Announcement) (h : announcementLe a b = true) : annS a b := by
  have h' : announcementCompare a b ≤ 0 := by
    simpa [announcementLe] using h
  by_cases hab : a.isPinned ∧ ¬ b.isPinned
  · left
    rw [annRank_lt_iff]
    exact ⟨by simpa using hab.1, by simpa using hab.2⟩
  · by_cases hba : ¬ a.isPinned ∧ b.isPinned
    · exfalso
      simp only [announcementCompare, if_neg hab, if_pos hba] at h'
      omega
    · have hpin : a.isPinned = b.isPinned := by
        cases hpa : a.isPinned <;> cases hpb : b.isPinned <;> simp_all
      right
      refine ⟨(annRank_eq_iff a b).mpr hpin, ?_⟩
      intro ta tb hta htb
      simp only [announcementCompare, if_neg hab, if_neg hba, hta, htb] at h'
      omega

theorem annLe_T (a b : Announcement) (h : announcementLe a b = false) : annT b a := by
  have h' : ¬ announcementCompare a b ≤ 0 := by
    simpa [announcementLe] using h
  by_cases hab : a.isPinned ∧ ¬ b.isPinned
  · exfalso
    simp only [announcementCompare, if_pos hab] at h'
    omega
  · by_cases hba : ¬ a.isPinned ∧ b.isPinned
    · left
      rw [annRank_lt_iff]
      exact ⟨by simpa using hba.2, by simpa using hba.1⟩
    · have hpin : a.isPinned = b.isPinned := by
        cases hpa : a.isPinned <;> cases hpb : b.isPinned <;> simp_all
      right
      refine ⟨(annRank_eq_iff b a).mpr hpin.symm, ?_⟩
      cases htb : jsDate b.lastUpdateTime with
      | none =>
        exfalso
        simp only [announcementCompare, if_neg hab, if_neg hba, htb] at h'
        omega
      | some tb =>
        cases hta : jsDate a.lastUpdateTime with
        | none =>
          exfalso
          simp only [announcementCompare, if_neg hab, if_neg hba, htb, hta] at h'
          omega
        | some ta =>
          refine ⟨tb, ta, rfl, rfl, ?_⟩
          simp only [announcementCompare, if_neg hab, if_neg hba, htb, hta] at h'
          omega

theorem annT_S_trans (a b c : Announcement) (h1 : annT a b) (h2 : annS b c) : annS a c := by
  rcases h1 with h1 | ⟨heq, ta, tb, hta, htb, hlt⟩
  · left
    exact lt_of_lt_of_le h1 (annS_rank_le b c h2)
  · rcases h2 with h2 | ⟨heq2, hall⟩
    · left
      omega
    · right
      refine ⟨by omega, ?_⟩
      intro ta' tc' hta' htc'
      have hta2 : ta' = ta := by
        rw [hta'] at hta
        exact Option.some_injective _ hta
      have := hall tb tc' htb htc'
      omega

theorem annT_to_S (a b : Announcement) (h : annT a b) : annS a b := by
  rcases h with h | ⟨heq, ta, tb, hta, htb, hlt⟩
  · left; exact h
  · right
    refine ⟨heq, ?_⟩
    intro ta' tb' hta' htb'
    have h1 : ta' = ta := by
      rw [hta'] at hta
      exact Option.some_injective _ hta
    have h2 : tb' = tb := by
      rw [htb'] at htb
      exact Option.some_injective _ htb
    omega

/-- The sorted output is `Pairwise annS`. -/
theorem pairwise_sortAnnouncements (l : List Announcement) :
    (sortAnnouncements l).Pairwise annS :=
  pairwise_jsSort announcementLe annS annT annLe_S annLe_T annT_S_trans annT_to_S l

/-! ### Tagged (index-carrying) version, for the stability statement -/

def annLeTagged (a b : Nat × Announcement) : Bool := announcementLe a.2 b.2

def annS2 (a b : Nat × Announcement) : Prop := annS a.2 b.2

def annT2 (a b : Nat × Announcement) : Prop := annT a.2 b.2

theorem annLeTagged_S (a b : Nat × Announcement) (h : annLeTagged a b = true) : annS2 a b :=
  annLe_S a.2 b.2 h

theorem annLeTagged_T (a b : Nat × Announcement) (h : annLeTagged a b = false) : annT2 b a :=
  annLe_T a.2 b.2 h

theorem annT2_S2_trans (a b c : Nat × Announcement) (h1 : annT2 a b) (h2 : annS2 b c) :
    annS2 a c :=
  annT_S_trans a.2 b.2 c.2 h1 h2

theorem annT2_to_S2 (a b : Nat × Announcement) (h : annT2 a b) : annS2 a b :=
  annT_to_S a.2 b.2 h

/-- Two records of the same pinned class whose timestamps are both invalid
or both equal and valid: the comparator never strictly orders them apart. -/
def annTie (a b : Announcement) : Prop :=
  a.isPinned = b.isPinned ∧
    ((jsDate a.lastUpdateTime = none ∧ jsDate b.lastUpdateTime = none) ∨
      ∃ t, jsDate a.lastUpdateTime = some t ∧ jsDate b.lastUpdateTime = some t)

theorem annTie_le (a b : Announcement) (h : annTie a b) : announcementLe a b = true := by
  obtain ⟨hpin, hd⟩ := h
  have hab : ¬ (a.isPinned ∧ ¬ b.isPinned) := by
    rw [hpin]
    tauto
  have hba : ¬ (¬ a.isPinned ∧ b.isPinned) := by
    rw [hpin]
    tauto
  simp only [announcementLe, announcementCompare, if_neg hab, if_neg hba, decide_eq_true_eq]
  rcases hd with ⟨ha, hb⟩ | ⟨t, ha, hb⟩
  · simp [ha, hb]
  · simp [ha, hb]

theorem annS_tie_skip (z p q : Announcement) (hz : annS z p) (ht : annTie p q) :
    announcementLe z q = true := by
  obtain ⟨hpin, hd⟩ := ht
  rcases hz with hlt | ⟨heq, hall⟩
  · have hzq : z.isPinned = true ∧ p.isPinned = false := (annRank_lt_iff z p).mp hlt
    have hqf : q.isPinned = false := hpin ▸ hzq.2
    simp only [announcementLe, announcementCompare, decide_eq_true_eq]
    rw [if_pos ⟨by simp [hzq.1], by simp [hqf]⟩]
    omega
  · have hzp : z.isPinned = p.isPinned := (annRank_eq_iff z p).mp heq
    have hzq : z.isPinned = q.isPinned := hzp.trans hpin
    have hab : ¬ (z.isPinned ∧ ¬ q.isPinned) := by
      rw [hzq]
      tauto
    have hba : ¬ (¬ z.isPinned ∧ q.isPinned) := by
      rw [hzq]
      tauto
    simp only [announcementLe, announcementCompare, if_neg hab, if_neg hba, decide_eq_true_eq]
    rcases hd with ⟨hp, hq⟩ | ⟨t, hp, hq⟩
    · simp [hq]
    · cases hzdate : jsDate z.lastUpdateTime with
      | none => simp [hq, hzdate]
      | some tz =>
        have := hall tz t hzdate hp
        simp only [hq, hzdate]
        omega

/-! ### Generic fold lemmas for the insertion sort -/

theorem mem_foldl_insertAfterLe (le : α → α → Bool) (L : List α) (acc : List α) (a : α)
    (h : a ∈ acc) : a ∈ L.foldl (fun acc x => insertAfterLe le x acc) acc := by
  induction L generalizing acc with
  | nil => exact h
  | cons x xs ih =>
    simp only [List.foldl_cons]
    exact ih _ ((mem_insertAfterLe_iff le x a acc).mpr (Or.inr h))

theorem sublist_foldl_insertAfterLe (le : α → α → Bool) (L : List α) (acc s : List α)
    (h : List.Sublist s acc) :
    List.Sublist s (L.foldl (fun acc x => insertAfterLe le x acc) acc) := by
  induction L generalizing acc with
  | nil => exact h
  | cons x xs ih =>
    simp only [List.foldl_cons]
    exact ih _ (h.trans (sublist_insertAfterLe le x acc))

theorem pairwise_foldl_insertAfterLe (le : α → α → Bool) (S T : α → α → Prop)
    (hle : ∀ a b, le a b = true → S a b)
    (hgt : ∀ a b, le a b = false → T b a)
    (hTS : ∀ a b c, T a b → S b c → S a c)
    (hT : ∀ a b, T a b → S a b)
    (L : List α) (acc : List α) (hacc : acc.Pairwise S) :
    (L.foldl (fun acc x => insertAfterLe le x acc) acc).Pairwise S := by
  induction L generalizing acc with
  | nil => exact hacc
  | cons x xs ih =>
    simp only [List.foldl_cons]
    exact ih _ (pairwise_insertAfterLe le S T x hle hgt hTS hT acc hacc)

theorem sublist_pair_decomp {a b : α} {l : List α} (h : List.Sublist [a, b] l) :
    ∃ l₁ l₂ l₃, l = l₁ ++ a :: l₂ ++ b :: l₃ := by
  induction l with
  | nil => cases h
  | cons c cs ih =>
    cases h with
    | cons _ h' =>
      obtain ⟨l₁, l₂, l₃, rfl⟩ := ih h'
      exact ⟨c :: l₁, l₂, l₃, rfl⟩
    | cons₂ _ h' =>
      obtain ⟨s, t, rfl⟩ := List.append_of_mem (List.singleton_sublist.mp h')
      exact ⟨[], s, t, rfl⟩

/-- Stability for comparator-tied pairs: a pair the comparator treats as
equal keeps its input order through the sort. -/
theorem jsSort_tagged_stable (tl : List (Nat × Announcement)) (p q : Nat × Announcement)
    (htie : annTie p.2 q.2) (hsub : List.Sublist [p, q] tl) :
    List.Sublist [p, q] (jsSort annLeTagged tl) := by
  obtain ⟨A, B, C, rfl⟩ := sublist_pair_decomp hsub
  simp only [jsSort]
  rw [List.foldl_append, List.foldl_cons, List.foldl_append, List.foldl_cons]
  have hpw0 : (A.foldl (fun acc x => insertAfterLe annLeTagged x acc) []).Pairwise annS2 :=
    pairwise_foldl_insertAfterLe annLeTagged annS2 annT2 annLeTagged_S annLeTagged_T
      annT2_S2_trans annT2_to_S2 A [] (by simp)
  have hp1 : p ∈ insertAfterLe annLeTagged p
      (A.foldl (fun acc x => insertAfterLe annLeTagged x acc) []) :=
    self_mem_insertAfterLe _ _ _
  have hpw1 : (insertAfterLe annLeTagged p
      (A.foldl (fun acc x => insertAfterLe annLeTagged x acc) [])).Pairwise annS2 :=
    pairwise_insertAfterLe annLeTagged annS2 annT2 p annLeTagged_S annLeTagged_T
      annT2_S2_trans annT2_to_S2 _ hpw0
  have hp2 : p ∈ B.foldl (fun acc x => insertAfterLe annLeTagged x acc)
      (insertAfterLe annLeTagged p
        (A.foldl (fun acc x => insertAfterLe annLeTagged x acc) [])) :=
    mem_foldl_insertAfterLe _ B _ p hp1
  have hpw2 : (B.foldl (fun acc x => insertAfterLe annLeTagged x acc)
      (insertAfterLe annLeTagged p
        (A.foldl (fun acc x => insertAfterLe annLeTagged x acc) []))).Pairwise annS2 :=
    pairwise_foldl_insertAfterLe annLeTagged annS2 annT2 annLeTagged_S annLeTagged_T
      annT2_S2_trans annT2_to_S2 B _ hpw1
  obtain ⟨l₁, l₂, hacc⟩ := List.append_of_mem hp2
  rw [hacc] at hpw2 ⊢
  have hcross := (List.pairwise_append.mp hpw2).2.2
  have hskip : ∀ z ∈ l₁ ++ [p], annLeTagged z q = true := by
    intro z hz
    rcases List.mem_append.mp hz with hz | hz
    · have hS : annS2 z p := hcross z hz p (by simp)
      exact annS_tie_skip z.2 p.2 q.2 hS htie
    · have hzp : z = p := by simpa using hz
      subst hzp
      exact annTie_le z.2 q.2 htie
  have hins : insertAfterLe annLeTagged q (l₁ ++ p :: l₂) =
      l₁ ++ p :: insertAfterLe annLeTagged q l₂ := by
    rw [show l₁ ++ p :: l₂ = (l₁ ++ [p]) ++ l₂ by simp]
    rw [insertAfterLe_append annLeTagged q (l₁ ++ [p]) l₂ hskip]
    simp
  rw [hins]
  have h1 : List.Sublist [p, q] (p :: insertAfterLe annLeTagged q l₂) :=
    List.Sublist.cons₂ p (List.singleton_sublist.mpr (self_mem_insertAfterLe _ _ _))
  exact sublist_foldl_insertAfterLe annLeTagged C _ _
    (h1.trans (List.sublist_append_right l₁ _))

/-- The tagged sort projects onto the untagged one: the comparator only reads
the record component. -/
theorem map_snd_insertAfterLe (le : β → β → Bool) (x : γ × β) (acc : List (γ × β)) :
    (insertAfterLe (fun a b => le a.2 b.2) x acc).map Prod.snd =
      insertAfterLe le x.2 (acc.map Prod.snd) := by
  induction acc with
  | nil => rfl
  | cons y ys ih =>
    simp only [insertAfterLe, List.map_cons]
    by_cases h : le y.2 x.2
    · simp only [h, if_true, List.map_cons]
      rw [ih]
    · simp [h]

theorem map_snd_jsSort (le : β → β → Bool) (l : List (γ × β)) :
    (jsSort (fun a b => le a.2 b.2) l).map Prod.snd = jsSort le (l.map Prod.snd) := by
  suffices h : ∀ acc : List (γ × β),
      (l.foldl (fun acc x => insertAfterLe (fun a b => le a.2 b.2) x acc) acc).map Prod.snd =
        (l.map Prod.snd).foldl (fun acc x => insertAfterLe le x acc) (acc.map Prod.snd) by
    exact h []
  induction l with
  | nil => intro acc; rfl
  | cons x xs ih =>
    intro acc
    simp only [List.foldl_cons, List.map_cons]
    rw [ih, map_snd_insertAfterLe]

/-! ## Claim C5: the announcement sorter -/

/-- Concrete inputs for the C5 counterexample and witness. -/
def c5AnnInvalid : Announcement := ⟨2, "A1", "", "", "", "", "bogus", "", false⟩

def c5AnnValid : Announcement := ⟨3, "A2", "", "", "", "", "2026-01-05", "", false⟩

def c5AnnValid2 : Announcement := ⟨4, "A3", "", "", "", "", "2026-01-02", "", false⟩

def c5AnnPinned : Announcement := ⟨5, "A4", "", "", "", "", "2026-01-01", "", true⟩

/-- C5 (counterexample).  The claim "records whose lastUpdateTime is
invalid/unparseable sort last" is false: the comparator computes
`new Date(b) - new Date(a)`, which is `NaN` when either date is invalid, and
ES `SortCompare` turns `NaN` into `+0` — a tie.  So an invalid-timestamp
record keeps its position: sorting `[invalid, valid]` leaves the invalid
record FIRST, not last. -/
theorem announcement_invalid_last_counterexample :
    jsDate c5AnnInvalid.lastUpdateTime = none ∧
      (jsDate c5AnnValid.lastUpdateTime).isSome = true ∧
      c5AnnInvalid.isPinned = c5AnnValid.isPinned ∧
      sortAnnouncements [c5AnnInvalid, c5AnnValid] = [c5AnnInvalid, c5AnnValid] := by
  refine ⟨by decide, by decide, by decide, by decide⟩

/-- C5 (amended).  At the comparator level — fully determined by the source —
a pinned record compares before a non-pinned one (`-1`/`1`); two records of
the same pinned class whose timestamps both parse compare by
`new Date(b) - new Date(a)` (later first); and if either timestamp of a
same-class pair is unparseable, the comparator returns `0` (the `NaN` of the
subtraction becomes a tie), so an invalid-timestamp record does NOT sort
last.  Those ties make the comparator inconsistent, and ES then leaves the
array order implementation-defined; the sorted-output facts are therefore
stated only for inputs whose every record has a parseable `lastUpdateTime`,
where ES fixes the output to the unique stable sorted permutation: the
output is a permutation of the input on which every pinned record precedes
every non-pinned one, same-class pairs are timestamp-descending, a
comparator-tied pair keeps its input order (index-tagged form), and the
index-tagged sort projects onto the record sort. -/
theorem announcement_sorter_amended
    (a b : Announcement) (l : List Announcement) (tl : List (Nat × Announcement))
    (p q : Nat × Announcement)
    (_hval : ∀ x ∈ l, (jsDate x.lastUpdateTime).isSome = true)
    (_hvtl : ∀ x ∈ tl, (jsDate x.2.lastUpdateTime).isSome = true)
    (htie : annTie p.2 q.2) (hsub : List.Sublist [p, q] tl) :
    (a.isPinned = true → b.isPinned = false → announcementCompare a b = -1) ∧
      (a.isPinned = false → b.isPinned = true → announcementCompare a b = 1) ∧
      (a.isPinned = b.isPinned → ∀ ta tb, jsDate a.lastUpdateTime = some ta →
        jsDate b.lastUpdateTime = some tb → announcementCompare a b = tb - ta) ∧
      (a.isPinned = b.isPinned →
        jsDate a.lastUpdateTime = none ∨ jsDate b.lastUpdateTime = none →
        announcementCompare a b = 0) ∧
      List.Perm (sortAnnouncements l) l ∧
      (sortAnnouncements l).Pairwise (fun x y => y.isPinned = true → x.isPinned = true) ∧
      (sortAnnouncements l).Pairwise (fun x y => x.isPinned = y.isPinned →
        ∀ tx ty, jsDate x.lastUpdateTime = some tx → jsDate y.lastUpdateTime = some ty →
          ty ≤ tx) ∧
      List.Sublist [p, q] (jsSort annLeTagged tl) ∧
      (jsSort annLeTagged l.enum).map Prod.snd = sortAnnouncements l := by
  refine ⟨?_, ?_, ?_, ?_, ?_, ?_, ?_, ?_, ?_⟩
  · intro ha hb
    simp [announcementCompare, ha, hb]
  · intro ha hb
    simp [announcementCompare, ha, hb]
  · intro hpin ta tb hta htb
    have hab : ¬ (a.isPinned ∧ ¬ b.isPinned) := by
      rw [hpin]
      tauto
    have hba : ¬ (¬ a.isPinned ∧ b.isPinned) := by
      rw [hpin]
      tauto
    simp only [announcementCompare, if_neg hab, if_neg hba, hta, htb]
  · intro hpin hnone
    have hab : ¬ (a.isPinned ∧ ¬ b.isPinned) := by
      rw [hpin]
      tauto
    have hba : ¬ (¬ a.isPinned ∧ b.isPinned) := by
      rw [hpin]
      tauto
    rcases hnone with h | h
    · cases hb' : jsDate b.lastUpdateTime <;>
        simp only [announcementCompare, if_neg hab, if_neg hba, h, hb']
    · simp only [announcementCompare, if_neg hab, if_neg hba, h]
  · exact perm_jsSort announcementLe l
  · apply (pairwise_sortAnnouncements l).imp
    intro x y hS hy
    have hle := annS_rank_le x y hS
    have hy0 : annRank y = 0 := by simp [annRank, hy]
    have hx0 : annRank x = 0 := by omega
    by_cases hpx : x.isPinned
    · simpa using hpx
    · exfalso
      simp [annRank, hpx] at hx0
  · apply (pairwise_sortAnnouncements l).imp
    intro x y hS hpin
    rcases hS with hlt | ⟨heq, hall⟩
    · exfalso
      rw [annRank_lt_iff] at hlt
      rw [hpin] at hlt
      exact absurd hlt.1 (by simp [hlt.2])
    · exact hall
  · exact jsSort_tagged_stable tl p q htie hsub
  · rw [show annLeTagged = fun a b : Nat × Announcement => announcementLe a.2 b.2 from rfl]
    rw [map_snd_jsSort announcementLe l.enum]
    rw [List.enum_map_snd]
    rfl

/-- C5 (witness): the hypotheses hold at a concrete all-parseable list (a
pinned record and two non-pinned ones with valid dates) and at a tagged pair
of equal-timestamp records, and the theorem instantiates there with the
comparator arguments a pinned and a non-pinned record. -/
theorem announcement_sorter_amended_witness :
    (∀ x ∈ [c5AnnValid2, c5AnnPinned, c5AnnValid],
        (jsDate x.lastUpdateTime).isSome = true) ∧
      (∀ x ∈ [((0 : Nat), c5AnnValid), (1, c5AnnValid)],
        (jsDate x.2.lastUpdateTime).isSome = true) ∧
      annTie ((0 : Nat), c5AnnValid).2 (1, c5AnnValid).2 ∧
      List.Sublist [((0 : Nat), c5AnnValid), (1, c5AnnValid)]
        [((0 : Nat), c5AnnValid), (1, c5AnnValid)] ∧
      ((c5AnnPinned.isPinned = true → c5AnnValid.isPinned = false →
          announcementCompare c5AnnPinned c5AnnValid = -1) ∧
        (c5AnnPinned.isPinned = false → c5AnnValid.isPinned = true →
          announcementCompare c5AnnPinned c5AnnValid = 1) ∧
        (c5AnnPinned.isPinned = c5AnnValid.isPinned →
          ∀ ta tb, jsDate c5AnnPinned.lastUpdateTime = some ta →
            jsDate c5AnnValid.lastUpdateTime = some tb →
            announcementCompare c5AnnPinned c5AnnValid = tb - ta) ∧
        (c5AnnPinned.isPinned = c5AnnValid.isPinned →
          jsDate c5AnnPinned.lastUpdateTime = none ∨
            jsDate c5AnnValid.lastUpdateTime = none →
          announcementCompare c5AnnPinned c5AnnValid = 0) ∧
        List.Perm (sortAnnouncements [c5AnnValid2, c5AnnPinned, c5AnnValid])
          [c5AnnValid2, c5AnnPinned, c5AnnValid] ∧
        (sortAnnouncements [c5AnnValid2, c5AnnPinned, c5AnnValid]).Pairwise
          (fun x y => y.isPinned = true → x.isPinned = true) ∧
        (sortAnnouncements [c5AnnValid2, c5AnnPinned, c5AnnValid]).Pairwise
          (fun x y => x.isPinned = y.isPinned →
            ∀ tx ty, jsDate x.lastUpdateTime = some tx →
              jsDate y.lastUpdateTime = some ty → ty ≤ tx) ∧
        List.Sublist [((0 : Nat), c5AnnValid), (1, c5AnnValid)]
          (jsSort annLeTagged [((0 : Nat), c5AnnValid), (1, c5AnnValid)]) ∧
        (jsSort annLeTagged
            ([c5AnnValid2, c5AnnPinned, c5AnnValid] : List Announcement).enum).map
            Prod.snd =
          sortAnnouncements [c5AnnValid2, c5AnnPinned, c5AnnValid]) :=
  ⟨by decide, by decide, ⟨by decide, Or.inr ⟨1767571200000, by decide, by decide⟩⟩,
    by decide,
    announcement_sorter_amended c5AnnPinned c5AnnValid
      [c5AnnValid2, c5AnnPinned, c5AnnValid]
      [((0 : Nat), c5AnnValid), (1, c5AnnValid)] ((0 : Nat), c5AnnValid) (1, c5AnnValid)
      (by decide) (by decide)
      ⟨by decide, Or.inr ⟨1767571200000, by decide, by decide⟩⟩ (by decide)⟩

end Crm
